import Mathlib

/-!
Verification development for the DeepBTC feature-engineering pipeline
(`api/feature_engine.py`).

The pipeline is embedded shallowly:

* Cell values are modelled by `FE.PVal`: a finite rational, `+inf`, `-inf`,
  or `nan` (the absence sentinel).  Arithmetic on `PVal` follows IEEE-754 /
  numpy semantics for the operations the pipeline uses (division by zero
  yields a signed infinity, `0/0` and any operation on `nan` yield `nan`).
* Real-valued library functions whose exact values no verified property
  depends on (`np.log`, the square root inside standard deviations) are
  parameters of the development, collected in `FE.RealFns`; only their
  definedness behaviour is fixed (`sqrt 0 = 0`, `log q` defined iff `q > 0`).
* A pandas DataFrame is a list of timestamps (hours, as naturals) plus a
  list of named columns of equal length (`FE.DF`); `NaT`/row identity is
  tracked positionally, row-dropping operations filter the timestamp list
  and every column with the same boolean mask.
* The pandas-ta indicator calls of `generate_price_features` are embedded
  with their standard formulas (SMA, EMA with SMA seeding, Wilder RMA,
  MACD, RSI, stochastic, ATR, Bollinger bands, ADX, CCI, Williams %R, MFI,
  OBV, daily-anchored VWAP); their column names are the ones pandas-ta
  produces, which is what the Finalizer's name-pattern classification
  keys on.
-/

namespace FE

/-! ### Kernel-computable rational arithmetic

`Rat.add`/`Rat.mul`/`Rat.inv` do not reduce inside the Lean 4.14 kernel,
but `mkRat` (and hence normalization via `Nat.gcd`) does.  The pipeline's
arithmetic is therefore expressed through the following helpers, each
proved equal to the corresponding field operation so that symbolic
theorems can still speak the language of `ℚ`. -/

/-- Addition on `ℚ` via `mkRat`. -/
def qAdd (a b : ℚ) : ℚ := mkRat (a.num * b.den + b.num * a.den) (a.den * b.den)

/-- Negation on `ℚ` via `mkRat`. -/
def qNeg (a : ℚ) : ℚ := mkRat (-a.num) a.den

/-- Subtraction on `ℚ` via `mkRat`. -/
def qSub (a b : ℚ) : ℚ := qAdd a (qNeg b)

/-- Multiplication on `ℚ` via `mkRat`. -/
def qMul (a b : ℚ) : ℚ := mkRat (a.num * b.num) (a.den * b.den)

/-- Division on `ℚ` via `mkRat`. -/
def qDiv (a b : ℚ) : ℚ :=
  if b.num < 0 then mkRat (-(a.num * (b.den : ℤ))) (a.den * b.num.natAbs)
  else mkRat (a.num * (b.den : ℤ)) (a.den * b.num.natAbs)

/-- Absolute value on `ℚ` via `mkRat`. -/
def qAbs (a : ℚ) : ℚ := mkRat (a.num.natAbs : ℤ) a.den

/-- A pandas/numpy float64 cell value: `nan` is the absence sentinel. -/
inductive PVal where
  | nan : PVal
  | inf : PVal
  | ninf : PVal
  | num (q : ℚ) : PVal
deriving DecidableEq, Repr

namespace PVal

/-- Negation, IEEE style. -/
def neg : PVal → PVal
  | nan => nan
  | inf => ninf
  | ninf => inf
  | num q => num (qNeg q)

/-- Addition, IEEE style (`inf + -inf = nan`). -/
def add : PVal → PVal → PVal
  | nan, _ => nan
  | _, nan => nan
  | inf, ninf => nan
  | ninf, inf => nan
  | inf, _ => inf
  | _, inf => inf
  | ninf, _ => ninf
  | _, ninf => ninf
  | num a, num b => num (qAdd a b)

/-- Subtraction. -/
def sub (a b : PVal) : PVal := add a (neg b)

/-- Multiplication, IEEE style (`inf * 0 = nan`). -/
def mul : PVal → PVal → PVal
  | nan, _ => nan
  | _, nan => nan
  | inf, inf => inf
  | inf, ninf => ninf
  | ninf, inf => ninf
  | ninf, ninf => inf
  | inf, num b => if b = 0 then nan else if 0 < b then inf else ninf
  | num a, inf => if a = 0 then nan else if 0 < a then inf else ninf
  | ninf, num b => if b = 0 then nan else if 0 < b then ninf else inf
  | num a, ninf => if a = 0 then nan else if 0 < a then ninf else inf
  | num a, num b => num (qMul a b)

/-- Division, numpy float semantics: `x/0` is a signed infinity for
`x ≠ 0`, `0/0` is `nan`, `x/±inf` is `0`. -/
def div : PVal → PVal → PVal
  | nan, _ => nan
  | _, nan => nan
  | inf, inf => nan
  | inf, ninf => nan
  | ninf, inf => nan
  | ninf, ninf => nan
  | inf, num b => if b < 0 then ninf else inf
  | ninf, num b => if b < 0 then inf else ninf
  | num _, inf => num 0
  | num _, ninf => num 0
  | num a, num b =>
      if b = 0 then (if a = 0 then nan else if 0 < a then inf else ninf)
      else num (qDiv a b)

/-- Absolute value. -/
def abs : PVal → PVal
  | nan => nan
  | inf => inf
  | ninf => inf
  | num q => num (qAbs q)

/-- Strictly-positive test, numpy comparison semantics
(`nan > 0` is false, `inf > 0` is true). -/
def gt0 : PVal → Bool
  | nan => false
  | inf => true
  | ninf => false
  | num q => decide (0 < q)

/-- Comparison against a rational constant (`nan < c` is false). -/
def ltQ : PVal → ℚ → Bool
  | nan, _ => false
  | inf, _ => false
  | ninf, _ => true
  | num q, c => decide (q < c)

/-- Comparison against a rational constant (`nan > c` is false). -/
def gtQ : PVal → ℚ → Bool
  | nan, _ => false
  | inf, _ => true
  | ninf, _ => false
  | num q, c => decide (c < q)

/-- The finite payload, if the value is a finite number. -/
def toQ : PVal → Option ℚ
  | num q => some q
  | _ => none

/-- Is this cell the absence sentinel? -/
def isNan : PVal → Bool
  | nan => true
  | _ => false

end PVal

open PVal

/-- The real-valued library functions (`np.log`, the square root used by
`std`) are kept abstract: no verified claim depends on their values, only
on when they are defined. -/
structure RealFns where
  sqrt : ℚ → ℚ
  log : ℚ → ℚ

/-- Trivial instantiation used by concrete witnesses. -/
def idFns : RealFns := ⟨fun q => q, fun q => q⟩

/-- Square root on cell values: `sqrt 0 = 0` exactly, positive arguments
go through the abstract function, negative arguments are undefined. -/
def pvSqrt (F : RealFns) : PVal → PVal
  | PVal.nan => PVal.nan
  | PVal.inf => PVal.inf
  | PVal.ninf => PVal.nan
  | PVal.num q => if q = 0 then PVal.num 0 else if 0 < q then PVal.num (F.sqrt q) else PVal.nan

/-- Natural logarithm on cell values (`np.log`): defined for positive
finite arguments, `log 0 = -inf`, negative arguments are `nan`. -/
def pvLog (F : RealFns) : PVal → PVal
  | PVal.nan => PVal.nan
  | PVal.inf => PVal.inf
  | PVal.ninf => PVal.nan
  | PVal.num q => if 0 < q then PVal.num (F.log q) else if q = 0 then PVal.ninf else PVal.nan

/-- `replace([inf, -inf], nan)` on one cell. -/
def infToNan : PVal → PVal
  | PVal.inf => PVal.nan
  | PVal.ninf => PVal.nan
  | x => x

/-- A column of cell values. -/
abbrev Col := List PVal

/-- A DataFrame: a timestamp index (hours since an epoch) plus named
columns, all of the same length as the index. -/
structure DF where
  idx : List ℕ
  cols : List (String × Col)
deriving DecidableEq, Repr

namespace DF

/-- Number of rows. -/
def rowCount (df : DF) : ℕ := df.idx.length

/-- Column names, in insertion order. -/
def colNames (df : DF) : List String := df.cols.map Prod.fst

/-- Look up a column by name. -/
def getCol (df : DF) (name : String) : Option Col :=
  (df.cols.find? (fun p => p.1 = name)).map Prod.snd

/-- The cell at position `i` of the named column (`nan` when absent). -/
def cell (df : DF) (name : String) (i : ℕ) : PVal :=
  ((df.getCol name).getD []).getD i PVal.nan

/-- Single-pass insert-or-overwrite on the column list (pandas column
names are unique, so overwriting the first match is `df[name] = col`). -/
def setColGo (name : String) (col : Col) : List (String × Col) → List (String × Col)
  | [] => [(name, col)]
  | p :: ps => if p.1 = name then (name, col) :: ps else p :: setColGo name col ps

/-- `df[name] = col`: replace the column if the name exists, else append. -/
def setCol (df : DF) (name : String) (col : Col) : DF :=
  { df with cols := setColGo name col df.cols }

/-- Well-formedness: every column has as many cells as there are rows. -/
def wf (df : DF) : Prop := ∀ p ∈ df.cols, p.2.length = df.idx.length

instance : DecidablePred wf := fun df =>
  inferInstanceAs (Decidable (∀ p ∈ df.cols, p.2.length = df.idx.length))

end DF

/-! ### List-level primitives shared by the pipeline stages -/

/-- Keep the entries of `xs` whose mask bit is `true` (row filtering). -/
def selectMask : List Bool → List α → List α
  | _, [] => []
  | [], _ :: _ => []
  | b :: m, x :: xs => if b then x :: selectMask m xs else selectMask m xs

/-- Forward fill, carrying the last non-`nan` value (`prev` seeds). -/
def ffillGo (prev : PVal) : List PVal → List PVal
  | [] => []
  | x :: xs =>
      let cur := if x = PVal.nan then prev else x
      cur :: ffillGo cur xs

/-- `Series.ffill()`. -/
def ffillL (xs : List PVal) : List PVal := ffillGo PVal.nan xs

/-- `Series.bfill()`. -/
def bfillL (xs : List PVal) : List PVal := (ffillGo PVal.nan xs.reverse).reverse

/-- Insert into a `≤`-sorted list of rationals. -/
def insSorted (x : ℚ) : List ℚ → List ℚ
  | [] => [x]
  | y :: ys => if x ≤ y then x :: y :: ys else y :: insSorted x ys

/-- Insertion sort (kernel-computable). -/
def sortQ (l : List ℚ) : List ℚ := l.foldr insSorted []

/-- Sum of a list of rationals. -/
def qSumL (l : List ℚ) : ℚ := l.foldl qAdd 0

/-- `Series.median()` over the finite entries (`nan` when none exist,
matching pandas on an all-missing column). -/
def medianL (xs : List PVal) : PVal :=
  let nums := sortQ (xs.filterMap PVal.toQ)
  match nums.length with
  | 0 => PVal.nan
  | Nat.succ _ =>
      if nums.length % 2 = 1 then PVal.num (nums.getD (nums.length / 2) 0)
      else PVal.num (qDiv (qAdd (nums.getD (nums.length / 2 - 1) 0) (nums.getD (nums.length / 2) 0)) 2)

/-- `Series.fillna(v)`. -/
def fillnaL (v : PVal) (xs : List PVal) : List PVal :=
  xs.map (fun x => if x = PVal.nan then v else x)

/-- Build a column of length `n` from a cell-at-position function. -/
def colOf (n : ℕ) (f : ℕ → PVal) : Col := (List.range n).map f

/-- Truncate or `nan`-pad a column to length `n`. -/
def padTo (n : ℕ) (xs : Col) : Col := xs.take n ++ List.replicate (n - xs.length) PVal.nan

/-- Pointwise binary operation on two columns, aligned at length `n`. -/
def cmap2 (n : ℕ) (op : PVal → PVal → PVal) (a b : Col) : Col :=
  List.zipWith op (padTo n a) (padTo n b)

/-- `Series.shift(k)` for `k ≥ 0`: row `t` receives the value from row
`t - k`; the first `k` rows become `nan`. -/
def shiftPos (k : ℕ) (xs : Col) : Col :=
  List.replicate (min k xs.length) PVal.nan ++ xs.take (xs.length - k)

/-- `Series.shift(-k)`: row `t` receives the value from row `t + k`; the
last `k` rows become `nan`. -/
def shiftNeg (k : ℕ) (xs : Col) : Col :=
  xs.drop k ++ List.replicate (min k xs.length) PVal.nan

/-- `Series.diff()`. -/
def diffL (xs : Col) : Col := cmap2 xs.length PVal.sub xs (shiftPos 1 xs)

/-- `Series.pct_change()` with the legacy default pad fill:
`x.ffill() / x.ffill().shift(1) - 1`. -/
def pctChange (xs : Col) : Col :=
  let f := ffillL xs
  cmap2 xs.length (fun a b => PVal.sub (PVal.div a b) (PVal.num 1)) f (shiftPos 1 f)

/-- The length-`w` window ending at position `t` (requires `w ≤ t + 1`
and `t < xs.length`). -/
def windowAt (xs : Col) (w t : ℕ) : List PVal :=
  (xs.drop (t + 1 - w)).take w

/-- Generic rolling computation with `min_periods = w` (head positions
with an incomplete window are `nan`). -/
def rollingW (w : ℕ) (g : List PVal → PVal) (xs : Col) : Col :=
  colOf xs.length (fun t => if t + 1 < w then PVal.nan else g (windowAt xs w t))

/-- Sum of a window (any `nan`/infinity propagates as in numpy). -/
def pvSum (ws : List PVal) : PVal := ws.foldl PVal.add (PVal.num 0)

/-- Prefix sums of the finite payloads (`nan`/infinities counted as `0`;
the accompanying prefix count of non-finite cells tells a window whether
it may use the fast difference path). -/
def scanAdd (acc : ℚ) : Col → List ℚ
  | [] => [acc]
  | x :: xs => acc :: scanAdd (qAdd acc (x.toQ.getD 0)) xs

/-- Prefix sums of squared finite payloads. -/
def scanSq (acc : ℚ) : Col → List ℚ
  | [] => [acc]
  | x :: xs => acc :: scanSq (qAdd acc (qMul (x.toQ.getD 0) (x.toQ.getD 0))) xs

/-- Prefix counts of non-finite cells. -/
def scanBad (acc : ℕ) : Col → List ℕ
  | [] => [acc]
  | x :: xs => acc :: scanBad (acc + if x.toQ.isSome then 0 else 1) xs

/-- `rolling(w).mean()`: the sum over each window divided by `w`; windows
containing a non-finite cell take the literal IEEE path. -/
def rollMean (w : ℕ) (xs : Col) : Col :=
  let S := scanAdd 0 xs
  let B := scanBad 0 xs
  colOf xs.length (fun t =>
    if t + 1 < w then PVal.nan
    else if B.getD (t + 1) 0 - B.getD (t + 1 - w) 0 = 0 then
      PVal.num (qDiv (qSub (S.getD (t + 1) 0) (S.getD (t + 1 - w) 0)) (w : ℚ))
    else PVal.div (pvSum (windowAt xs w t)) (PVal.num w))

/-- `rolling(w).sum()`. -/
def rollSum (w : ℕ) (xs : Col) : Col :=
  let S := scanAdd 0 xs
  let B := scanBad 0 xs
  colOf xs.length (fun t =>
    if t + 1 < w then PVal.nan
    else if B.getD (t + 1) 0 - B.getD (t + 1 - w) 0 = 0 then
      PVal.num (qSub (S.getD (t + 1) 0) (S.getD (t + 1 - w) 0))
    else pvSum (windowAt xs w t))

/-- The finite payloads of a window, or `none` if any cell is not
finite (direct recursion, equivalent to `mapM toQ`). -/
def finList : List PVal → Option (List ℚ)
  | [] => some []
  | x :: xs =>
      match x.toQ, finList xs with
      | some a, some b => some (a :: b)
      | _, _ => none

/-- Sample variance of a window of finite values (`nan` otherwise). -/
def varOf (ws : List PVal) : PVal :=
  match finList ws with
  | none => PVal.nan
  | some qs =>
      if qs.length ≤ 1 then PVal.nan
      else
        let m := qDiv (qSumL qs) (qs.length : ℚ)
        PVal.num (qDiv (qSumL (qs.map (fun x => qMul (qSub x m) (qSub x m))))
          ((qs.length - 1 : ℕ) : ℚ))

/-- `rolling(w).std()` (sample standard deviation, `ddof = 1`), computed
for all-finite windows through the exact identity
`(w − 1) · var = Σ x² − (Σ x)² / w`. -/
def rollStd (F : RealFns) (w : ℕ) (xs : Col) : Col :=
  let S := scanAdd 0 xs
  let Q := scanSq 0 xs
  let B := scanBad 0 xs
  colOf xs.length (fun t =>
    if t + 1 < w then PVal.nan
    else if 2 ≤ w ∧ B.getD (t + 1) 0 - B.getD (t + 1 - w) 0 = 0 then
      let s := qSub (S.getD (t + 1) 0) (S.getD (t + 1 - w) 0)
      let q := qSub (Q.getD (t + 1) 0) (Q.getD (t + 1 - w) 0)
      pvSqrt F (PVal.num (qDiv (qSub q (qDiv (qMul s s) (w : ℚ))) ((w - 1 : ℕ) : ℚ)))
    else pvSqrt F (varOf (windowAt xs w t)))

/-- Binary maximum on `ℚ` by cases (kernel-computable). -/
def qMax2 (a b : ℚ) : ℚ := if a ≤ b then b else a

/-- Binary minimum on `ℚ` by cases (kernel-computable). -/
def qMin2 (a b : ℚ) : ℚ := if a ≤ b then a else b

/-- Maximum of a window (`nan` if any entry is not finite). -/
def maxOf (ws : List PVal) : PVal :=
  match finList ws with
  | none => PVal.nan
  | some [] => PVal.nan
  | some (q :: qs) => PVal.num (qs.foldl qMax2 q)

/-- Minimum of a window (`nan` if any entry is not finite). -/
def minOf (ws : List PVal) : PVal :=
  match finList ws with
  | none => PVal.nan
  | some [] => PVal.nan
  | some (q :: qs) => PVal.num (qs.foldl qMin2 q)

/-- `rolling(w).max()`. -/
def rollMax (w : ℕ) (xs : Col) : Col := rollingW w maxOf xs

/-- `rolling(w).min()`. -/
def rollMin (w : ℕ) (xs : Col) : Col := rollingW w minOf xs

/-- Rolling Pearson correlation of two columns (window `w`,
`min_periods = w`): `nan` unless every pair in the window is finite; the
scale factors of the sample covariance/deviations cancel, so it is
computed as `Σ dx·dy / (sqrt (Σ dx²) · sqrt (Σ dy²))`. -/
def rollCorr (F : RealFns) (w : ℕ) (xs ys : Col) : Col :=
  colOf xs.length (fun t =>
    if t + 1 < w then PVal.nan
    else
      match (finList (windowAt xs w t), finList (windowAt ys w t)) with
      | (some as, some bs) =>
          let ma := qDiv (qSumL as) (as.length : ℚ)
          let mb := qDiv (qSumL bs) (bs.length : ℚ)
          let dxy := ((as.map (fun a => qSub a ma)).zip (bs.map (fun b => qSub b mb))).map
            (fun p => qMul p.1 p.2)
          let sx := qSumL (as.map (fun a => qMul (qSub a ma) (qSub a ma)))
          let sy := qSumL (bs.map (fun b => qMul (qSub b mb) (qSub b mb)))
          PVal.div (PVal.num (qSumL dxy))
            (PVal.mul (pvSqrt F (PVal.num sx)) (pvSqrt F (PVal.num sy)))
      | _ => PVal.nan)

/-- Cumulative sum (`Series.cumsum()` semantics restricted to the
finite/propagating arithmetic of `PVal.add`). -/
def cumsumGo (acc : PVal) : List PVal → List PVal
  | [] => []
  | x :: xs =>
      let cur := PVal.add acc x
      cur :: cumsumGo cur xs

/-! ### pandas-ta indicator embeddings

These model the indicator battery `generate_price_features` invokes via
`df.ta.*(append=True)`; column names are the ones pandas-ta appends. -/

/-- One step of `ewm(adjust=False).mean()`: a `nan` observation carries
the previous state, the first finite observation restarts the recursion. -/
def ewmStep (a : ℚ) (prev x : PVal) : PVal :=
  if x = PVal.nan then prev
  else
    match prev with
    | PVal.nan => x
    | p => PVal.add (PVal.mul (PVal.num a) x) (PVal.mul (PVal.num (qSub 1 a)) p)

/-- The `ewm(adjust=False).mean()` recursion over a column. -/
def ewmGo (a : ℚ) (prev : PVal) : List PVal → List PVal
  | [] => []
  | x :: xs =>
      let cur := ewmStep a prev x
      cur :: ewmGo a cur xs

/-- Mean of the first `L` cells. -/
def meanFirst (L : ℕ) (xs : Col) : PVal :=
  PVal.div (pvSum ((List.range L).map (fun k => xs.getD k PVal.nan))) (PVal.num L)

/-- pandas-ta `ema(length=L)` (default SMA seeding): the first `L - 1`
positions are blanked, position `L - 1` is seeded with the SMA of the
first `L` observations, then the `ewm` recursion runs. -/
def emaCol (L : ℕ) (xs : Col) : Col :=
  let seeded := colOf xs.length (fun t =>
    if t + 1 < L then PVal.nan
    else if t + 1 = L then meanFirst L xs
    else xs.getD t PVal.nan)
  ewmGo (mkRat 2 (L + 1)) PVal.nan seeded

/-- Wilder's smoothing (`rma`): `ewm(alpha = 1/L, min_periods = L)` —
positions before the `L`-th finite observation are `nan`. -/
def rmaGo (a : ℚ) (prev : PVal) (cnt L : ℕ) : List PVal → List PVal
  | [] => []
  | x :: xs =>
      let cur := ewmStep a prev x
      let cnt' := if x = PVal.nan then cnt else cnt + 1
      (if L ≤ cnt' then cur else PVal.nan) :: rmaGo a cur cnt' L xs

/-- Wilder's moving average of length `L`. -/
def rmaCol (L : ℕ) (xs : Col) : Col := rmaGo (mkRat 1 L) PVal.nan 0 L xs

/-- Positive part (for RSI gains). -/
def posPart : PVal → PVal
  | PVal.nan => PVal.nan
  | PVal.inf => PVal.inf
  | PVal.ninf => PVal.num 0
  | PVal.num q => PVal.num (if q ≤ 0 then 0 else q)

/-- Negative part (for RSI losses). -/
def negPart : PVal → PVal
  | PVal.nan => PVal.nan
  | PVal.inf => PVal.num 0
  | PVal.ninf => PVal.inf
  | PVal.num q => PVal.num (if 0 ≤ q then 0 else qNeg q)

/-- pandas-ta `rsi(length=L)`: Wilder-smoothed gains and losses,
`RSI = 100 · up / (up + down)`. -/
def rsiCol (L : ℕ) (close : Col) : Col :=
  let d := diffL close
  let up := rmaCol L (d.map posPart)
  let dn := rmaCol L (d.map negPart)
  cmap2 close.length
    (fun u v => PVal.div (PVal.mul (PVal.num 100) u) (PVal.add u v)) up dn

/-- pandas-ta `macd()` = (MACD line, histogram, signal). -/
def macdCols (close : Col) : Col × Col × Col :=
  let line := cmap2 close.length PVal.sub (emaCol 12 close) (emaCol 26 close)
  let signal := emaCol 9 line
  let hist := cmap2 close.length PVal.sub line signal
  (line, hist, signal)

/-- pandas-ta `stoch()` (14, 3, 3): %K and %D. -/
def stochCols (high low close : Col) : Col × Col :=
  let n := close.length
  let ll := rollMin 14 low
  let hh := rollMax 14 high
  let fastk := (cmap2 n PVal.div (cmap2 n PVal.sub close ll)
      (cmap2 n PVal.sub hh ll)).map (fun v => PVal.mul (PVal.num 100) v)
  let k := rollMean 3 fastk
  (k, rollMean 3 k)

/-- Maximum of three cell values (`nan` poisons). -/
def max3 (a b c : PVal) : PVal :=
  match a.toQ, b.toQ, c.toQ with
  | some x, some y, some z => PVal.num (max x (max y z))
  | _, _, _ => PVal.nan

/-- True range: `max(high − low, |high − close₋₁|, |low − close₋₁|)`
(undefined at the first row). -/
def trueRange (high low close : Col) : Col :=
  let cp := shiftPos 1 close
  let n := close.length
  List.zipWith (fun hl hc_lc => max3 hl hc_lc.1 hc_lc.2)
    (cmap2 n PVal.sub high low)
    (List.zip ((cmap2 n PVal.sub high cp).map PVal.abs)
              ((cmap2 n PVal.sub low cp).map PVal.abs))

/-- pandas-ta `atr(length=L)` (RMA smoothing of the true range). -/
def atrCol (L : ℕ) (high low close : Col) : Col :=
  rmaCol L (trueRange high low close)

/-- pandas-ta `bbands(length=20)` with 2 standard deviations:
(lower, mid, upper, bandwidth, percent). -/
def bbandsCols (F : RealFns) (close : Col) : Col × Col × Col × Col × Col :=
  let n := close.length
  let mid := rollMean 20 close
  let sd := rollStd F 20 close
  let lower := cmap2 n (fun m s => PVal.sub m (PVal.mul (PVal.num 2) s)) mid sd
  let upper := cmap2 n (fun m s => PVal.add m (PVal.mul (PVal.num 2) s)) mid sd
  let bw := cmap2 n (fun d m => PVal.div (PVal.mul (PVal.num 100) d) m)
    (cmap2 n PVal.sub upper lower) mid
  let pct := cmap2 n PVal.div (cmap2 n PVal.sub close lower) (cmap2 n PVal.sub upper lower)
  (lower, mid, upper, bw, pct)

/-- Directional movements for ADX: `+DM` and `-DM`. -/
def dmCols (high low : Col) : Col × Col :=
  let up := diffL high
  let dn := (diffL low).map PVal.neg
  let pdm := cmap2 high.length (fun u d =>
    match u.toQ, d.toQ with
    | some x, some y => PVal.num (if y < x ∧ 0 < x then x else 0)
    | _, _ => PVal.nan) up dn
  let mdm := cmap2 high.length (fun u d =>
    match u.toQ, d.toQ with
    | some x, some y => PVal.num (if x < y ∧ 0 < y then y else 0)
    | _, _ => PVal.nan) up dn
  (pdm, mdm)

/-- pandas-ta `adx(length=14)`: (ADX, +DI, -DI). -/
def adxCols (high low close : Col) : Col × Col × Col :=
  let n := close.length
  let (pdm, mdm) := dmCols high low
  let atr14 := atrCol 14 high low close
  let dmp := cmap2 n (fun p a => PVal.div (PVal.mul (PVal.num 100) p) a) (rmaCol 14 pdm) atr14
  let dmn := cmap2 n (fun m a => PVal.div (PVal.mul (PVal.num 100) m) a) (rmaCol 14 mdm) atr14
  let dx := cmap2 n (fun p m =>
    PVal.div (PVal.mul (PVal.num 100) (PVal.abs (PVal.sub p m))) (PVal.add p m)) dmp dmn
  (rmaCol 14 dx, dmp, dmn)

/-- Mean absolute deviation of a window of finite values. -/
def madOf (ws : List PVal) : PVal :=
  match finList ws with
  | none => PVal.nan
  | some [] => PVal.nan
  | some qs =>
      let m := qDiv (qSumL qs) (qs.length : ℚ)
      PVal.num (qDiv (qSumL (qs.map (fun x => qAbs (qSub x m)))) (qs.length : ℚ))

/-- Typical price `(high + low + close) / 3`. -/
def typicalPrice (high low close : Col) : Col :=
  cmap2 close.length (fun hl c => PVal.div (PVal.add hl c) (PVal.num 3))
    (cmap2 close.length PVal.add high low) close

/-- pandas-ta `cci(length=20)`: `(tp − sma(tp)) / (0.015 · mad(tp))`. -/
def cciCol (high low close : Col) : Col :=
  let n := close.length
  let tp := typicalPrice high low close
  let m := rollMean 20 tp
  let mad := rollingW 20 madOf tp
  cmap2 n PVal.div (cmap2 n PVal.sub tp m)
    (mad.map (fun v => PVal.mul (PVal.num (mkRat 15 1000)) v))

/-- pandas-ta `willr(length=14)`: `−100 · (hh − close) / (hh − ll)`. -/
def willrCol (high low close : Col) : Col :=
  let n := close.length
  let ll := rollMin 14 low
  let hh := rollMax 14 high
  (cmap2 n PVal.div (cmap2 n PVal.sub hh close)
      (cmap2 n PVal.sub hh ll)).map (fun v => PVal.mul (PVal.num (-100)) v)

/-- pandas-ta `mfi(length=14)`: money-flow ratio of up-moves to
down-moves of the typical price. -/
def mfiCol (high low close volume : Col) : Col :=
  let n := close.length
  let tp := typicalPrice high low close
  let raw := cmap2 n PVal.mul tp volume
  let d := diffL tp
  let pos := cmap2 n (fun dv rv =>
    match dv.toQ with
    | some q => if 0 < q then rv else PVal.num 0
    | none => PVal.nan) d raw
  let neg := cmap2 n (fun dv rv =>
    match dv.toQ with
    | some q => if q < 0 then rv else PVal.num 0
    | none => PVal.nan) d raw
  cmap2 n (fun p m => PVal.div (PVal.mul (PVal.num 100) p) (PVal.add p m))
    (rollSum 14 pos) (rollSum 14 neg)

/-- pandas-ta `obv()`: cumulative volume signed by the close move (the
first row contributes `+volume`). -/
def obvCol (close volume : Col) : Col :=
  let d := diffL close
  let step := fun (dv v : PVal) =>
    match dv.toQ with
    | some q =>
        if 0 < q then v
        else if q < 0 then PVal.neg v
        else PVal.num 0
    | none => PVal.nan
  let signed :=
    match volume with
    | [] => []
    | v0 :: _ => v0 :: List.zipWith step (d.drop 1) (volume.drop 1)
  cumsumGo (PVal.num 0) signed

/-- The running within-day accumulation for VWAP: each row contributes
`(typical price × volume, volume)`; sums restart when the day changes. -/
def vwapGo (prevDay : Option ℕ) (sumPV sumV : PVal) : List (ℕ × PVal × PVal) → List PVal
  | [] => []
  | (d, pv, v) :: rest =>
      let s1 := if prevDay = some d then PVal.add sumPV pv else pv
      let s2 := if prevDay = some d then PVal.add sumV v else v
      PVal.div s1 s2 :: vwapGo (some d) s1 s2 rest

/-- pandas-ta `vwap()` with the default daily anchor: cumulative
`typical price × volume` over cumulative volume within each calendar day
(timestamps are hours in ascending order, so a day is `ts / 24`). -/
def vwapCol (ids : List ℕ) (high low close volume : Col) : Col :=
  let tp := typicalPrice high low close
  vwapGo none PVal.nan PVal.nan
    ((ids.map (fun t => t / 24)).zip ((cmap2 close.length PVal.mul tp volume).zip
      (padTo close.length volume)))

/-! ### Pipeline stage 1: `generate_price_features` -/

/-- `x/y − 1` on cells. -/
def ratioM1 (a b : PVal) : PVal := PVal.sub (PVal.div a b) (PVal.num 1)

/-- `EnhancedFeatureEngine.generate_price_features`: extends the OHLCV
table with returns, the three forward-return columns, momentum,
volatility, volume features, the pandas-ta indicator battery and the
price-to-moving-average ratios, in source order. -/
def generate_price_features (F : RealFns) (df : DF) : DF :=
  let n := df.rowCount
  let close := (df.getCol "Close").getD []
  let high := (df.getCol "High").getD []
  let low := (df.getCol "Low").getD []
  let volume := (df.getCol "Volume").getD []
  let returns := pctChange close
  let df := df.setCol "returns" returns
  let df := df.setCol "log_returns"
    ((cmap2 n PVal.div close (shiftPos 1 close)).map (pvLog F))
  let df := df.setCol "future_return_1h" (cmap2 n ratioM1 (shiftNeg 1 close) close)
  let df := df.setCol "future_return_6h" (cmap2 n ratioM1 (shiftNeg 6 close) close)
  let df := df.setCol "future_return_24h" (cmap2 n ratioM1 (shiftNeg 24 close) close)
  let df := df.setCol "price_momentum_24h" (cmap2 n ratioM1 close (shiftPos 24 close))
  let df := df.setCol "price_momentum_7d" (cmap2 n ratioM1 close (shiftPos 168 close))
  let df := df.setCol "volatility_24h" (rollStd F 24 returns)
  let df := df.setCol "volatility_7d" (rollStd F 168 returns)
  let volumeMa := rollMean 24 volume
  let df := df.setCol "volume_ma_24h" volumeMa
  let df := df.setCol "volume_ratio" (cmap2 n PVal.div volume volumeMa)
  let df := df.setCol "volume_momentum" (cmap2 n ratioM1 volume (shiftPos 24 volume))
  let df := df.setCol "VWAP_D" (vwapCol df.idx high low close volume)
  let sma20 := rollMean 20 close
  let sma50 := rollMean 50 close
  let sma200 := rollMean 200 close
  let df := df.setCol "SMA_20" sma20
  let df := df.setCol "SMA_50" sma50
  let df := df.setCol "SMA_200" sma200
  let df := df.setCol "EMA_12" (emaCol 12 close)
  let df := df.setCol "EMA_26" (emaCol 26 close)
  let macd := macdCols close
  let df := df.setCol "MACD_12_26_9" macd.1
  let df := df.setCol "MACDh_12_26_9" macd.2.1
  let df := df.setCol "MACDs_12_26_9" macd.2.2
  let df := df.setCol "RSI_14" (rsiCol 14 close)
  let df := df.setCol "RSI_21" (rsiCol 21 close)
  let stoch := stochCols high low close
  let df := df.setCol "STOCHk_14_3_3" stoch.1
  let df := df.setCol "STOCHd_14_3_3" stoch.2
  let df := df.setCol "ATRr_14" (atrCol 14 high low close)
  let bb := bbandsCols F close
  let df := df.setCol "BBL_20_2.0" bb.1
  let df := df.setCol "BBM_20_2.0" bb.2.1
  let df := df.setCol "BBU_20_2.0" bb.2.2.1
  let df := df.setCol "BBB_20_2.0" bb.2.2.2.1
  let df := df.setCol "BBP_20_2.0" bb.2.2.2.2
  let adx := adxCols high low close
  let df := df.setCol "ADX_14" adx.1
  let df := df.setCol "DMP_14" adx.2.1
  let df := df.setCol "DMN_14" adx.2.2
  let df := df.setCol "CCI_20_0.015" (cciCol high low close)
  let df := df.setCol "WILLR_14" (willrCol high low close)
  let df := df.setCol "MFI_14" (mfiCol high low close volume)
  let df := df.setCol "OBV" (obvCol close volume)
  let df := df.setCol "price_to_sma20" (cmap2 n ratioM1 close sma20)
  let df := df.setCol "price_to_sma50" (cmap2 n ratioM1 close sma50)
  let df := df.setCol "price_to_sma200" (cmap2 n ratioM1 close sma200)
  let df := df.setCol "sma50_to_sma200" (cmap2 n ratioM1 sma50 sma200)
  df

/-! ### String classification used by the Finalizer -/

/-- Is `p` a leading segment of `s`? -/
def listStarts : List Char → List Char → Bool
  | [], _ => true
  | _ :: _, [] => false
  | a :: ps, b :: ss => a = b && listStarts ps ss

/-- Does `p` occur contiguously inside `s`? -/
def listHas (p : List Char) : List Char → Bool
  | [] => p.isEmpty
  | s :: rest => listStarts p (s :: rest) || listHas p rest

/-- Python's `pat in s` substring test. -/
def strHas (p s : String) : Bool := listHas p.toList s.toList

/-- Python's `s.lower()`. -/
def lowerStr (s : String) : String := String.mk (s.data.map Char.toLower)

/-- The name patterns `clean_and_finalize` treats as technical columns. -/
def techPatterns : List String :=
  ["sma", "ema", "rsi", "macd", "bb", "atr", "stoch", "adx",
   "cci", "willr", "mfi", "obv", "vwap", "momentum", "volatility"]

/-- A column is "technical" iff its lowercased name contains one of the
`techPatterns` (the source's `any(x in col.lower() for x in ...)`). -/
def isTech (name : String) : Bool := techPatterns.any (fun p => strHas p (lowerStr name))

/-- A column is a label column iff its lowercased name contains
`"target"`. -/
def isTarget (name : String) : Bool := strHas "target" (lowerStr name)

/-- `self.critical_features`. -/
def critical_features : List String := ["Close", "Volume", "returns"]

/-! ### Pipeline stage 2: `merge_external_data` -/

/-- The value carried forward to hour `t`: the cell at the largest source
timestamp `≤ t` (source rows are assumed in ascending timestamp order,
as pandas guarantees for a time index). -/
def lastAtOrBefore (ids : List ℕ) (col : Col) (t : ℕ) : PVal :=
  (ids.zip col).foldl (fun acc p => if p.1 ≤ t then p.2 else acc) PVal.nan

/-- `source_df.resample('1H').ffill()`: an hourly grid from the source's
first to last timestamp, each cell the last value at or before it. -/
def resampleHourlyFfill (src : DF) : DF :=
  match src.idx with
  | [] => src
  | t0 :: rest =>
      let lo := rest.foldl min t0
      let hi := rest.foldl max t0
      let grid := (List.range (hi - lo + 1)).map (fun k => lo + k)
      ⟨grid, src.cols.map (fun p => (p.1, grid.map (fun t => lastAtOrBefore src.idx p.2 t)))⟩

/-- The cell of a source column at timestamp `t`, `nan` when `t` is not
in the source index (the left-join fill). -/
def joinLookup (ids : List ℕ) (col : Col) (t : ℕ) : PVal :=
  (((ids.zip col).find? (fun p => p.1 = t)).map Prod.snd).getD PVal.nan

/-- `df.join(src, how='left')`: every `df` row is kept; source columns
are matched by timestamp. -/
def leftJoin (df src : DF) : DF :=
  { df with cols := df.cols ++
      src.cols.map (fun p => (p.1, df.idx.map (fun t => joinLookup src.idx p.2 t))) }

/-- `EnhancedFeatureEngine.merge_external_data`: no-op on an empty
source; otherwise resample-to-hourly, left-join, then forward-fill,
backward-fill and median-fill the newly joined columns. -/
def merge_external_data (df : DF) (srcName : String) (src : DF) : DF :=
  if src.idx.isEmpty ∨ src.cols.isEmpty then df
  else
    let _ := srcName
    let srcH := resampleHourlyFfill src
    let srcCols : List String := srcH.colNames
    let joined := leftJoin df srcH
    let filled : DF := { joined with cols := joined.cols.map (fun p =>
        if p.1 ∈ srcCols then (p.1, bfillL (ffillL p.2)) else p) }
    { filled with cols := filled.cols.map (fun p =>
        if p.1 ∈ srcCols then (p.1, fillnaL (medianL p.2) p.2) else p) }

/-! ### Pipeline stage 3: `add_derived_features` -/

/-- Blockchain-derived features: hash-rate change block. -/
def blockHashRate (df : DF) : DF :=
  if "hash_rate_th_s" ∈ df.colNames then
    let n := df.rowCount
    let h := (df.getCol "hash_rate_th_s").getD []
    let df := df.setCol "hash_rate_change_7d" (cmap2 n ratioM1 h (shiftPos 168 h))
    df.setCol "hash_rate_change_30d" (cmap2 n ratioM1 h (shiftPos 720 h))
  else df

/-- Blockchain-derived features: difficulty block. -/
def blockDifficulty (df : DF) : DF :=
  if "difficulty" ∈ df.colNames then
    let d := (df.getCol "difficulty").getD []
    df.setCol "difficulty_change_7d" (cmap2 df.rowCount ratioM1 d (shiftPos 168 d))
  else df

/-- Blockchain-derived features: transaction-count block. -/
def blockTxCount (df : DF) : DF :=
  if "tx_count_daily" ∈ df.colNames then
    let n := df.rowCount
    let t := (df.getCol "tx_count_daily").getD []
    let df := df.setCol "tx_count_change_7d" (cmap2 n ratioM1 t (shiftPos 168 t))
    df.setCol "tx_count_ma_7d" (rollMean 168 t)
  else df

/-- NVT-ratio block: `(price × supply) / (tx count × 1e6)`, infinities
replaced, then forward/backward filled. -/
def blockNvt (df : DF) : DF :=
  if "market_price_usd" ∈ df.colNames ∧ "tx_count_daily" ∈ df.colNames ∧
     "total_btc_supply" ∈ df.colNames then
    let n := df.rowCount
    let price := (df.getCol "market_price_usd").getD []
    let tx := (df.getCol "tx_count_daily").getD []
    let supply := (df.getCol "total_btc_supply").getD []
    let mcap := cmap2 n PVal.mul price supply
    let nvt := cmap2 n PVal.div mcap
      (tx.map (fun v => PVal.mul v (PVal.num 1000000)))
    df.setCol "nvt_ratio" (bfillL (ffillL (nvt.map infToNan)))
  else df

/-- Sentiment-derived features block. -/
def blockFearGreed (df : DF) : DF :=
  if "fear_greed_value" ∈ df.colNames then
    let n := df.rowCount
    let f := (df.getCol "fear_greed_value").getD []
    let df := df.setCol "fear_greed_change_7d" (cmap2 n PVal.sub f (shiftPos 168 f))
    let df := df.setCol "fear_greed_ma_7d" (rollMean 168 f)
    let df := df.setCol "extreme_fear"
      (f.map (fun v => PVal.num (if v.ltQ 25 then 1 else 0)))
    df.setCol "extreme_greed"
      (f.map (fun v => PVal.num (if v.gtQ 75 then 1 else 0)))
  else df

/-- S&P-500 macro block (returns, 7-day change, rolling correlation). -/
def blockSp500 (F : RealFns) (df : DF) : DF :=
  if "SP500" ∈ df.colNames then
    let n := df.rowCount
    let returns := (df.getCol "returns").getD []
    let s := (df.getCol "SP500").getD []
    let sr := pctChange s
    let df := df.setCol "sp500_returns" sr
    let df := df.setCol "sp500_change_7d" (cmap2 n ratioM1 s (shiftPos 168 s))
    df.setCol "btc_sp500_correlation" (rollCorr F 720 returns sr)
  else df

/-- VIX macro block. -/
def blockVix (df : DF) : DF :=
  if "VIX" ∈ df.colNames then
    let v := (df.getCol "VIX").getD []
    let df := df.setCol "vix_change" (pctChange v)
    df.setCol "vix_ma_7d" (rollMean 168 v)
  else df

/-- DXY macro block. -/
def blockDxy (F : RealFns) (df : DF) : DF :=
  if "DXY" ∈ df.colNames then
    let returns := (df.getCol "returns").getD []
    let x := (df.getCol "DXY").getD []
    let dc := pctChange x
    let df := df.setCol "dxy_change" dc
    df.setCol "btc_dxy_correlation" (rollCorr F 720 returns dc)
  else df

/-- Gold macro block. -/
def blockGold (F : RealFns) (df : DF) : DF :=
  if "GOLD" ∈ df.colNames then
    let returns := (df.getCol "returns").getD []
    let g := (df.getCol "GOLD").getD []
    let gr := pctChange g
    let df := df.setCol "gold_returns" gr
    df.setCol "btc_gold_correlation" (rollCorr F 720 returns gr)
  else df

/-- `EnhancedFeatureEngine.add_derived_features`: cross-source features,
each block conditional on its prerequisite columns being present (the
blocks run in source order; none of them writes the columns another
block reads, so reading a prerequisite inside its block sees the same
column the source reads). -/
def add_derived_features (F : RealFns) (df : DF) : DF :=
  blockGold F (blockDxy F (blockVix (blockSp500 F
    (blockFearGreed (blockNvt (blockTxCount (blockDifficulty (blockHashRate df))))))))

/-! ### Pipeline stage 4: `create_target_labels` -/

/-- `pd.cut` with bins `(-inf, -0.01, -0.002, 0.002, 0.01, inf)` and
labels `0..4`: right-closed intervals, so each finite boundary value
falls into the class below it; `-inf` (an open left edge) is excluded
and maps to the sentinel, `+inf` lies in the last (right-closed) bin. -/
def cut5 : PVal → PVal
  | PVal.nan => PVal.nan
  | PVal.ninf => PVal.nan
  | PVal.inf => PVal.num 4
  | PVal.num r =>
      if r ≤ mkRat (-1) 100 then PVal.num 0
      else if r ≤ mkRat (-1) 500 then PVal.num 1
      else if r ≤ mkRat 1 500 then PVal.num 2
      else if r ≤ mkRat 1 100 then PVal.num 3
      else PVal.num 4

/-- `EnhancedFeatureEngine.create_target_labels`: the binary direction
(`(future_return_1h > 0).astype(int)`, numpy comparison semantics), the
five-class `pd.cut` label, and the regression target. -/
def create_target_labels (df : DF) : DF :=
  let fr := (df.getCol "future_return_1h").getD []
  let df := df.setCol "target_direction_1h"
    (fr.map (fun v => PVal.num (if v.gt0 then 1 else 0)))
  let df := df.setCol "target_multiclass_1h" (fr.map cut5)
  df.setCol "target_return_1h" fr

/-! ### Pipeline stage 5: `clean_and_finalize` -/

/-- Filter rows with a boolean mask (applied to the index and to every
column in step). -/
def filterRows (df : DF) (mask : List Bool) : DF :=
  ⟨selectMask mask df.idx, df.cols.map (fun p => (p.1, selectMask mask p.2))⟩

/-- Pointwise conjunction of two masks. -/
def andMask (a b : List Bool) : List Bool := List.zipWith and a b

/-- The `dropna(subset=names)` keep-mask: a row survives iff every named
column is non-`nan` there (a missing column counts as all-`nan`). -/
def dropnaMask (df : DF) (names : List String) : List Bool :=
  names.foldl (fun m c =>
    andMask m (((df.getCol c).getD (List.replicate df.rowCount PVal.nan)).map
      (fun v => !v.isNan)))
    (List.replicate df.rowCount true)

/-- The `dropna()` keep-mask over every column. -/
def dropnaAllMask (df : DF) : List Bool :=
  df.cols.foldl (fun m p => andMask m (p.2.map (fun v => !v.isNan)))
    (List.replicate df.rowCount true)

/-- `EnhancedFeatureEngine.clean_and_finalize`, the table part, directly
following the source: (1) `replace([inf, -inf], nan)`, (2)
`dropna(subset=critical_features)`, (3) `ffill().bfill()` on the
name-pattern technical columns, (4) `dropna(subset=target columns)`,
(5) `dropna()`. -/
def clean_and_finalize (df : DF) : DF :=
  let df1 : DF := { df with cols := df.cols.map (fun p => (p.1, p.2.map infToNan)) }
  let df2 := filterRows df1 (dropnaMask df1 critical_features)
  let df3 : DF := { df2 with cols := df2.cols.map (fun p =>
      if isTech p.1 then (p.1, bfillL (ffillL p.2)) else p) }
  let df4 := filterRows df3 (dropnaMask df3 (df3.colNames.filter (fun c => isTarget c)))
  filterRows df4 (dropnaAllMask df4)

/-- The retention report printed by `clean_and_finalize`.  When the
input table is empty the Python code raises `ZeroDivisionError` while
computing the retention rate, modelled as `none`. -/
structure Report where
  initialRows : ℕ
  criticalDropped : ℕ
  otherDropped : ℕ
  finalRows : ℕ
  retention : ℚ
deriving DecidableEq, Repr

/-- The retention statistics `clean_and_finalize` reports. -/
def finalizeReport (df : DF) : Option Report :=
  let initial := df.rowCount
  let df1 : DF := { df with cols := df.cols.map (fun p => (p.1, p.2.map infToNan)) }
  let df2 := filterRows df1 (dropnaMask df1 critical_features)
  let critical := initial - df2.rowCount
  let final := (clean_and_finalize df).rowCount
  if initial = 0 then none
  else some ⟨initial, critical, (initial - final) - critical, final,
    qMul (qDiv (final : ℚ) (initial : ℚ)) 100⟩

/-! ### The whole pipeline and persistence -/

/-- `EnhancedFeatureEngine.generate_all_features` after a successful
load: price features, the three optional merges (skipped when the source
was not loaded), derived features, labels, and final cleaning. -/
def generate_all_features (F : RealFns) (ohlcv : DF)
    (srcBlockchain srcSentiment srcMacroTbl : Option DF) : DF :=
  let df := generate_price_features F ohlcv
  let df := match srcBlockchain with
    | some s => merge_external_data df "blockchain" s
    | none => df
  let df := match srcSentiment with
    | some s => merge_external_data df "sentiment" s
    | none => df
  let df := match srcMacroTbl with
    | some s => merge_external_data df "macro" s
    | none => df
  let df := add_derived_features F df
  let df := create_target_labels df
  clean_and_finalize df

/-- `EnhancedFeatureEngine.save_features`: returns whether a file is
written.  The source only skips the write when the frame is `None`
(failed load); any actual frame — including an empty one — is persisted
via `to_csv`. -/
def save_features : Option DF → Bool
  | none => false
  | some _ => true

/-! ### Spec-side step functions of the Finalizer (§4.6)

These name the five cleaning steps individually; the refinement theorem
for the Finalizer relates `clean_and_finalize` to their composition. -/

/-- Step 1: replace `±inf` with the absence sentinel everywhere. -/
def replaceInfNan (df : DF) : DF :=
  { df with cols := df.cols.map (fun p => (p.1, p.2.map infToNan)) }

/-- Step 2: drop rows missing any CriticalColumnSet value. -/
def dropMissingCritical (df : DF) : DF :=
  filterRows df (dropnaMask df critical_features)

/-- Step 3: forward-fill then backward-fill the technical columns. -/
def fillTechnical (df : DF) : DF :=
  { df with cols := df.cols.map (fun p =>
      if isTech p.1 then (p.1, bfillL (ffillL p.2)) else p) }

/-- Step 4: drop rows missing any label column. -/
def dropMissingLabels (df : DF) : DF :=
  filterRows df (dropnaMask df (df.colNames.filter (fun c => isTarget c)))

/-- Step 5: drop any row still containing the absence sentinel. -/
def dropAnyMissing (df : DF) : DF :=
  filterRows df (dropnaAllMask df)

/-! ### Concrete inputs used by counterexamples and witnesses -/

/-- A column alternating between two finite values. -/
def altCol (n : ℕ) (a b : ℚ) : Col :=
  (List.range n).map (fun t => PVal.num (if t % 2 = 0 then a else b))

/-- A constant finite column. -/
def constCol (n : ℕ) (a : ℚ) : Col := List.replicate n (PVal.num a)

/-- An `n`-row hourly OHLCV table with alternating prices and volumes
(generic enough that every indicator is defined after its warm-up). -/
def mkOHLCV (n : ℕ) : DF :=
  ⟨List.range n,
   [("Open", constCol n 1), ("High", altCol n 2 3), ("Low", altCol n 0 1),
    ("Close", altCol n 1 2), ("Volume", altCol n 1 2)]⟩

/-- An `n`-row hourly OHLCV table with constant prices. -/
def constOHLCV (n : ℕ) : DF :=
  ⟨List.range n,
   [("Open", constCol n 1), ("High", constCol n 1), ("Low", constCol n 1),
    ("Close", constCol n 1), ("Volume", constCol n 1)]⟩

/-- A one-row sentiment source far in the future of any `mkOHLCV n`
index: its timestamp overlaps no OHLCV row. -/
def lateSentiment : DF := ⟨[480000], [("fear_greed_value", [PVal.num 50])]⟩

/-- A three-row frame holding only a Close column (for forward-return
witnesses). -/
def closeFrame : DF := ⟨[0, 1, 2], [("Close", [PVal.num 1, PVal.num 2, PVal.num 4])]⟩

/-- A one-row frame whose 1-step forward return sits exactly on the
`-1%` boundary. -/
def boundaryFrame : DF := ⟨[0], [("future_return_1h", [PVal.num (mkRat (-1) 100)])]⟩

/-- A two-row frame with one unrecoverable row (missing Close). -/
def criticalFrame : DF :=
  ⟨[0, 1], [("Close", [PVal.num 1, PVal.nan]), ("Volume", [PVal.num 1, PVal.num 1]),
    ("returns", [PVal.num 0, PVal.num 0])]⟩

/-- A 25-row frame whose volume is zero at the first hour and positive
later: the 24-hour volume momentum divides by zero. -/
def volFrame : DF :=
  ⟨List.range 25,
   [("Close", constCol 25 1), ("High", constCol 25 1), ("Low", constCol 25 1),
    ("Volume", PVal.num 0 :: List.replicate 24 (PVal.num 5))]⟩

/-- The pre-Finalizer table of the source-free 200-row run. -/
def preA : DF :=
  create_target_labels (add_derived_features idFns
    (generate_price_features idFns (mkOHLCV 200)))

/-- The table after the Finalizer's first step. -/
def df1A : DF := replaceInfNan preA

/-- The step-2 keep-mask (rows with every critical value present). -/
def m2A : List Bool := dropnaMask df1A critical_features

/-- The same table after the Finalizer's first two steps. -/
def df2A : DF := filterRows df1A m2A

/-- After the technical forward/backward fill (step 3). -/
def df3A : DF := fillTechnical df2A

/-- The step-4 keep-mask (rows with every label present). -/
def m4A : List Bool := dropnaMask df3A (df3A.colNames.filter (fun c => isTarget c))

/-- The table after the Finalizer's first four steps. -/
def df4A : DF := filterRows df3A m4A

/-! ## Theorems -/

/-! ### List-level lemmas -/

theorem getD_mem_of_lt (xs : List α) (j : ℕ) (d : α) (h : j < xs.length) :
    xs.getD j d ∈ xs := by
  rw [List.getD_eq_getElem xs d h]
  exact List.getElem_mem h

theorem selectMask_sublist (m : List Bool) (xs : List α) : List.Sublist (selectMask m xs) xs := by
  induction m generalizing xs with
  | nil => cases xs <;> simp [selectMask]
  | cons b mt ih =>
      cases xs with
      | nil => simp [selectMask]
      | cons x xt =>
          by_cases hb : b
          · simpa [selectMask, hb] using (ih xt).cons₂ x
          · simpa [selectMask, hb] using (ih xt).cons x

theorem mem_selectMask {m : List Bool} {xs : List α} {a : α}
    (h : a ∈ selectMask m xs) : a ∈ xs :=
  (selectMask_sublist m xs).subset h

theorem selectMask_nil_of_false {m : List Bool} (xs : List α)
    (h : ∀ b ∈ m, b = false) : selectMask m xs = [] := by
  induction m generalizing xs with
  | nil => cases xs <;> rfl
  | cons b mt ih =>
      cases xs with
      | nil => rfl
      | cons x xt =>
          have hb : b = false := h b (by simp)
          subst hb
          simpa [selectMask] using ih xt (fun b hbm => h b (by simp [hbm]))

theorem selectMask_zip (m : List Bool) (xs : List α) (ys : List β) :
    selectMask m (xs.zip ys) = (selectMask m xs).zip (selectMask m ys) := by
  induction m generalizing xs ys with
  | nil => cases xs <;> cases ys <;> simp [selectMask]
  | cons b mt ih =>
      cases xs with
      | nil => simp [selectMask]
      | cons x xt =>
          cases ys with
          | nil =>
              by_cases hb : b <;> simp [selectMask, hb]
          | cons y yt =>
              have ihz : selectMask mt (List.zipWith Prod.mk xt yt) =
                  (selectMask mt xt).zip (selectMask mt yt) := ih xt yt
              by_cases hb : b <;>
                simp only [selectMask, hb, if_pos, if_neg, Bool.false_eq_true,
                  not_false_eq_true, List.zip_cons_cons, ihz]

theorem selectMask_length_congr (m : List Bool) (xs : List α) (ys : List β)
    (h : xs.length = ys.length) :
    (selectMask m xs).length = (selectMask m ys).length := by
  induction m generalizing xs ys with
  | nil => cases xs <;> cases ys <;> simp_all [selectMask]
  | cons b mt ih =>
      cases xs with
      | nil => cases ys <;> simp_all [selectMask]
      | cons x xt =>
          cases ys with
          | nil => simp at h
          | cons y yt =>
              have h' : xt.length = yt.length := by simpa using h
              by_cases hb : b <;> simp [selectMask, hb, ih xt yt h']

theorem getD_not_mem_selectMask {m : List Bool} {xs : List ℕ} {j : ℕ}
    (hnd : xs.Nodup) (hj : j < xs.length)
    (hbit : m.getD j false = false ∨ m.length ≤ j) :
    xs.getD j 0 ∉ selectMask m xs := by
  induction m generalizing xs j with
  | nil =>
      cases xs with
      | nil => simp at hj
      | cons x xt => simp [selectMask]
  | cons b mt ih =>
      cases xs with
      | nil => simp at hj
      | cons x xt =>
          cases j with
          | zero =>
              have hb : b = false := by
                rcases hbit with h | h
                · simpa using h
                · simp at h
              subst hb
              simp only [selectMask, List.getD_cons_zero]
              intro hmem
              exact (List.nodup_cons.mp hnd).1 (mem_selectMask hmem)
          | succ j' =>
              have hj' : j' < xt.length := by simpa using hj
              have hbit' : mt.getD j' false = false ∨ mt.length ≤ j' := by
                rcases hbit with h | h
                · left; simpa using h
                · right; simpa using Nat.le_of_succ_le_succ h
              have ihx := ih (List.nodup_cons.mp hnd).2 hj' hbit'
              by_cases hb : b
              · simp only [selectMask, hb, if_pos, List.getD_cons_succ]
                intro hmem
                rcases List.mem_cons.mp hmem with h | h
                · exact (List.nodup_cons.mp hnd).1 (h ▸ getD_mem_of_lt xt j' 0 hj')
                · exact ihx h
              · simpa [selectMask, hb] using ihx

theorem exists_index_of_mem_selectMask {m : List Bool} {xs : List α} {a : α}
    (h : a ∈ selectMask m xs) :
    ∃ i, m.getD i false = true ∧ xs[i]? = some a := by
  induction m generalizing xs with
  | nil => cases xs <;> simp [selectMask] at h
  | cons b mt ih =>
      cases xs with
      | nil => simp [selectMask] at h
      | cons x xt =>
          by_cases hb : b
          · rw [selectMask, if_pos hb] at h
            rcases List.mem_cons.mp h with rfl | h'
            · exact ⟨0, by simpa using hb, by simp⟩
            · obtain ⟨i, h1, h2⟩ := ih h'
              exact ⟨i + 1, by simpa using h1, by simpa using h2⟩
          · rw [selectMask, if_neg hb] at h
            obtain ⟨i, h1, h2⟩ := ih h
            exact ⟨i + 1, by simpa using h1, by simpa using h2⟩

theorem pair_mem_zip_of_getD {xs : List α} {ys : List β} {j : ℕ} (dx : α) (dy : β)
    (hx : j < xs.length) (hy : j < ys.length) :
    (xs.getD j dx, ys.getD j dy) ∈ xs.zip ys := by
  induction xs generalizing ys j with
  | nil => simp at hx
  | cons x xt ih =>
      cases ys with
      | nil => simp at hy
      | cons y yt =>
          cases j with
          | zero => simp
          | succ j' =>
              have := @ih yt j' (by simpa using hx) (by simpa using hy)
              simpa using Or.inr this

theorem zip_nodup_snd_eq {xs : List α} {ys : List β} {a : α} {b b' : β}
    (hnd : xs.Nodup) (h1 : (a, b) ∈ xs.zip ys) (h2 : (a, b') ∈ xs.zip ys) : b = b' := by
  induction xs generalizing ys with
  | nil => simp at h1
  | cons x xt ih =>
      cases ys with
      | nil => simp at h1
      | cons y yt =>
          have hnd' := List.nodup_cons.mp hnd
          rcases List.mem_cons.mp h1 with he1 | ht1
          · rcases List.mem_cons.mp h2 with he2 | ht2
            · rw [Prod.mk.injEq] at he1 he2
              rw [he1.2, he2.2]
            · exfalso
              rw [Prod.mk.injEq] at he1
              exact hnd'.1 (he1.1 ▸ (List.of_mem_zip ht2).1)
          · rcases List.mem_cons.mp h2 with he2 | ht2
            · exfalso
              rw [Prod.mk.injEq] at he2
              exact hnd'.1 (he2.1 ▸ (List.of_mem_zip ht1).1)
            · exact ih hnd'.2 ht1 ht2

theorem exists_index_of_mem_zip {xs : List α} {ys : List β} {a : α} {b : β}
    (h : (a, b) ∈ xs.zip ys) : ∃ i : ℕ, xs[i]? = some a ∧ ys[i]? = some b := by
  induction xs generalizing ys with
  | nil => simp at h
  | cons x xt ih =>
      cases ys with
      | nil => simp at h
      | cons y yt =>
          rcases List.mem_cons.mp h with he | ht
          · rw [Prod.mk.injEq] at he
            exact ⟨0, by simp [he.1], by simp [he.2]⟩
          · obtain ⟨i, h1, h2⟩ := ih ht
            exact ⟨i + 1, by simpa using h1, by simpa using h2⟩

theorem exists_snd_of_mem_left {xs : List α} {ys : List β} {a : α}
    (h : a ∈ xs) (hlen : xs.length = ys.length) : ∃ b, (a, b) ∈ xs.zip ys := by
  induction xs generalizing ys with
  | nil => simp at h
  | cons x xt ih =>
      cases ys with
      | nil => simp at hlen
      | cons y yt =>
          rcases List.mem_cons.mp h with rfl | ht
          · exact ⟨y, by simp⟩
          · obtain ⟨b, hb⟩ := ih ht (by simpa using hlen)
            exact ⟨b, by simp [hb]⟩

theorem getD_map_eq (f : PVal → β) (c : Col) (i : ℕ) (d : β) (h : i < c.length) :
    (c.map f).getD i d = f (c.getD i PVal.nan) := by
  rw [List.getD_eq_getElem _ d (by simpa using h), List.getElem_map,
    List.getD_eq_getElem _ _ h]

theorem getD_true_lt_length {m : List Bool} {i : ℕ} (h : m.getD i false = true) :
    i < m.length := by
  by_contra hcon
  rw [List.getD_eq_default _ _ (by omega)] at h
  exact Bool.false_ne_true h

/-! ### Mask lemmas -/

theorem andMask_bad_left {m x : List Bool} {i : ℕ}
    (h : m.getD i false = false ∨ m.length ≤ i) :
    (andMask m x).getD i false = false ∨ (andMask m x).length ≤ i := by
  rcases h with h | h
  · by_cases hi : i < (andMask m x).length
    · left
      have hm : i < m.length := lt_of_lt_of_le hi (by simp [andMask, List.length_zipWith])
      have hx : i < x.length := lt_of_lt_of_le hi (by simp [andMask, List.length_zipWith])
      rw [andMask, List.getD_eq_getElem _ _ (by simpa [andMask] using hi),
        List.getElem_zipWith]
      rw [List.getD_eq_getElem _ _ hm] at h
      simp [h]
    · right; omega
  · right
    simp only [andMask, List.length_zipWith]
    omega

theorem andMask_bad_right {m x : List Bool} {i : ℕ}
    (h : x.getD i false = false ∨ x.length ≤ i) :
    (andMask m x).getD i false = false ∨ (andMask m x).length ≤ i := by
  rcases h with h | h
  · by_cases hi : i < (andMask m x).length
    · left
      have hx : i < x.length := lt_of_lt_of_le hi (by simp [andMask, List.length_zipWith])
      rw [andMask, List.getD_eq_getElem _ _ (by simpa [andMask] using hi),
        List.getElem_zipWith]
      rw [List.getD_eq_getElem _ _ hx] at h
      simp [h]
    · right; omega
  · right
    simp only [andMask, List.length_zipWith]
    omega

theorem foldl_andMask_bad (l : List (String × Col)) (m0 : List Bool) (i : ℕ)
    (h : m0.getD i false = false ∨ m0.length ≤ i) :
    (l.foldl (fun m p => andMask m (p.2.map (fun v => !v.isNan))) m0).getD i false = false ∨
      (l.foldl (fun m p => andMask m (p.2.map (fun v => !v.isNan))) m0).length ≤ i := by
  induction l generalizing m0 with
  | nil => exact h
  | cons p ps ih => exact ih _ (andMask_bad_left h)

theorem dropnaAllMask_bad (df : DF) (nm : String) (c : Col) (i : ℕ)
    (hmem : (nm, c) ∈ df.cols) (hi : i < c.length)
    (hc : c.getD i PVal.nan = PVal.nan) :
    (dropnaAllMask df).getD i false = false ∨ (dropnaAllMask df).length ≤ i := by
  obtain ⟨l1, l2, hsplit⟩ := List.append_of_mem hmem
  rw [dropnaAllMask, hsplit, List.foldl_append, List.foldl_cons]
  apply foldl_andMask_bad
  apply andMask_bad_right
  left
  rw [getD_map_eq _ _ _ _ hi, hc]
  rfl

theorem andMask_true_split {m x : List Bool} {i : ℕ}
    (h : (andMask m x).getD i false = true) :
    m.getD i false = true ∧ x.getD i false = true := by
  have hi := getD_true_lt_length h
  have hm : i < m.length := lt_of_lt_of_le hi (by simp [andMask, List.length_zipWith])
  have hx : i < x.length := lt_of_lt_of_le hi (by simp [andMask, List.length_zipWith])
  rw [andMask, List.getD_eq_getElem _ _ (by simpa [andMask] using hi),
    List.getElem_zipWith] at h
  rw [List.getD_eq_getElem _ _ hm, List.getD_eq_getElem _ _ hx]
  exact Bool.and_eq_true_iff.mp h

theorem foldl_andMask_true (l : List (String × Col)) (m0 : List Bool) (i : ℕ)
    (h : (l.foldl (fun m p => andMask m (p.2.map (fun v => !v.isNan))) m0).getD i false = true) :
    m0.getD i false = true ∧
      ∀ p ∈ l, (p.2.map (fun v : PVal => !v.isNan)).getD i false = true := by
  induction l generalizing m0 with
  | nil => exact ⟨h, by simp⟩
  | cons p ps ih =>
      rw [List.foldl_cons] at h
      obtain ⟨h0, hrest⟩ := ih _ h
      obtain ⟨hm0, hp⟩ := andMask_true_split h0
      refine ⟨hm0, ?_⟩
      intro q hq
      rcases List.mem_cons.mp hq with rfl | hq'
      · exact hp
      · exact hrest q hq'

theorem dropnaAllMask_true_cell (df : DF) (nm : String) (c : Col) (i : ℕ)
    (hmem : (nm, c) ∈ df.cols)
    (hbit : (dropnaAllMask df).getD i false = true) :
    i < c.length ∧ c.getD i PVal.nan ≠ PVal.nan := by
  obtain ⟨_, hall⟩ := foldl_andMask_true _ _ _ hbit
  have hc := hall (nm, c) hmem
  have hlen : i < c.length := by
    have := getD_true_lt_length hc
    simpa using this
  refine ⟨hlen, ?_⟩
  rw [getD_map_eq _ _ _ _ hlen] at hc
  intro hnan
  rw [hnan] at hc
  exact Bool.false_ne_true hc

theorem mem_zipWith_cases {f : α → β → γ} {xs : List α} {ys : List β} {c : γ}
    (h : c ∈ List.zipWith f xs ys) : ∃ a b, a ∈ xs ∧ b ∈ ys ∧ c = f a b := by
  induction xs generalizing ys with
  | nil => simp at h
  | cons x xt ih =>
      cases ys with
      | nil => simp at h
      | cons y yt =>
          rcases List.mem_cons.mp h with rfl | h'
          · exact ⟨x, y, by simp, by simp, rfl⟩
          · obtain ⟨a, b, ha, hb, rfl⟩ := ih h'
            exact ⟨a, b, by simp [ha], by simp [hb], rfl⟩

theorem mem_andMask_right_false {m x : List Bool} (hx : ∀ b ∈ x, b = false) :
    ∀ b ∈ andMask m x, b = false := by
  intro b hb
  rw [andMask] at hb
  obtain ⟨a, b', _, hb', rfl⟩ := mem_zipWith_cases hb
  rw [hx b' hb']
  simp

theorem mem_andMask_left_false {m x : List Bool} (hm : ∀ b ∈ m, b = false) :
    ∀ b ∈ andMask m x, b = false := by
  intro b hb
  rw [andMask] at hb
  obtain ⟨a, b', ha, _, rfl⟩ := mem_zipWith_cases hb
  rw [hm a ha]
  simp

theorem foldl_andMask_false (l : List (String × Col)) (m0 : List Bool)
    (h : ∀ b ∈ m0, b = false) :
    ∀ b ∈ l.foldl (fun m p => andMask m (p.2.map (fun v => !v.isNan))) m0, b = false := by
  induction l generalizing m0 with
  | nil => exact h
  | cons p ps ih => exact ih _ (mem_andMask_left_false h)

theorem dropnaAllMask_false_of_allnan (df : DF) (nm : String) (c : Col)
    (hmem : (nm, c) ∈ df.cols) (h : ∀ v ∈ c, v = PVal.nan) :
    ∀ b ∈ dropnaAllMask df, b = false := by
  obtain ⟨l1, l2, hsplit⟩ := List.append_of_mem hmem
  rw [dropnaAllMask, hsplit, List.foldl_append, List.foldl_cons]
  apply foldl_andMask_false
  apply mem_andMask_right_false
  intro b hb
  obtain ⟨v, hv, rfl⟩ := List.mem_map.mp hb
  rw [h v hv]
  rfl

/-! ### Fill and median lemmas -/

theorem ffillGo_allnan {xs : List PVal} (h : ∀ v ∈ xs, v = PVal.nan) :
    ∀ v ∈ ffillGo PVal.nan xs, v = PVal.nan := by
  induction xs with
  | nil => simp [ffillGo]
  | cons x xt ih =>
      have hx : x = PVal.nan := h x (by simp)
      intro v hv
      rw [ffillGo] at hv
      simp only [hx, if_pos] at hv
      rcases List.mem_cons.mp hv with rfl | hv'
      · rfl
      · exact ih (fun v hv => h v (by simp [hv])) v (by simpa using hv')

theorem ffillL_allnan {xs : List PVal} (h : ∀ v ∈ xs, v = PVal.nan) :
    ∀ v ∈ ffillL xs, v = PVal.nan := ffillGo_allnan h

theorem bfillL_allnan {xs : List PVal} (h : ∀ v ∈ xs, v = PVal.nan) :
    ∀ v ∈ bfillL xs, v = PVal.nan := by
  intro v hv
  rw [bfillL, List.mem_reverse] at hv
  exact ffillGo_allnan (fun w hw => h w (List.mem_reverse.mp hw)) v hv

theorem medianL_allnan {xs : List PVal} (h : ∀ v ∈ xs, v = PVal.nan) :
    medianL xs = PVal.nan := by
  have hf : xs.filterMap PVal.toQ = [] := by
    rw [List.filterMap_eq_nil_iff]
    intro v hv
    rw [h v hv]
    rfl
  rw [medianL, hf]
  rfl

theorem fillnaL_allnan {xs : List PVal} (w : PVal) (hw : w = PVal.nan)
    (h : ∀ v ∈ xs, v = PVal.nan) : ∀ v ∈ fillnaL w xs, v = PVal.nan := by
  intro v hv
  obtain ⟨u, hu, rfl⟩ := List.mem_map.mp hv
  rw [h u hu]
  simpa using hw

theorem map_clean_allnan {xs : List PVal} (h : ∀ v ∈ xs, v = PVal.nan) :
    ∀ v ∈ xs.map infToNan, v = PVal.nan := by
  intro v hv
  obtain ⟨u, hu, rfl⟩ := List.mem_map.mp hv
  rw [h u hu]
  rfl

theorem selectMask_allnan {m : List Bool} {xs : List PVal}
    (h : ∀ v ∈ xs, v = PVal.nan) : ∀ v ∈ selectMask m xs, v = PVal.nan :=
  fun v hv => h v (mem_selectMask hv)

/-! ### setCol algebra -/

theorem mem_setColGo_self (n : String) (c : Col) (l : List (String × Col)) :
    (n, c) ∈ DF.setColGo n c l := by
  induction l with
  | nil => simp [DF.setColGo]
  | cons p ps ih =>
      rw [DF.setColGo]
      by_cases hp : p.1 = n <;> simp [hp, ih]

theorem mem_setColGo_of_ne {m : String} {cc : Col} {l : List (String × Col)}
    (n : String) (c : Col) (hm : (m, cc) ∈ l) (hne : m ≠ n) :
    (m, cc) ∈ DF.setColGo n c l := by
  induction l with
  | nil => simp at hm
  | cons p ps ih =>
      rw [DF.setColGo]
      by_cases hp : p.1 = n
      · rcases List.mem_cons.mp hm with rfl | hm'
        · exact absurd hp hne
        · simp [hp, hm']
      · rcases List.mem_cons.mp hm with rfl | hm'
        · simp [hp]
        · simp [hp, ih hm']

theorem mem_cols_setCol {m : String} {cc : Col} (df : DF) (n : String) (c : Col)
    (hm : (m, cc) ∈ df.cols) (hne : m ≠ n) : (m, cc) ∈ (df.setCol n c).cols :=
  mem_setColGo_of_ne n c hm hne

theorem mem_cols_setCol_self (df : DF) (n : String) (c : Col) :
    (n, c) ∈ (df.setCol n c).cols :=
  mem_setColGo_self n c df.cols

theorem find?_setColGo_self (n : String) (c : Col) (l : List (String × Col)) :
    (DF.setColGo n c l).find? (fun p => p.1 = n) = some (n, c) := by
  induction l with
  | nil => simp [DF.setColGo, List.find?]
  | cons p ps ih =>
      rw [DF.setColGo]
      by_cases hp : p.1 = n
      · rw [if_pos hp, List.find?_cons]
        simp
      · rw [if_neg hp, List.find?_cons]
        have : (decide (p.1 = n)) = false := by simpa using hp
        rw [this]
        exact ih

theorem find?_setColGo_ne (n m : String) (c : Col) (l : List (String × Col))
    (hne : m ≠ n) :
    (DF.setColGo n c l).find? (fun p => p.1 = m) = l.find? (fun p => p.1 = m) := by
  induction l with
  | nil =>
      rw [DF.setColGo, List.find?_cons]
      have : (decide ((n, c).1 = m)) = false := by
        simp only [decide_eq_false_iff_not]
        exact fun h => hne h.symm
      rw [this]
  | cons p ps ih =>
      rw [DF.setColGo]
      by_cases hp : p.1 = n
      · rw [if_pos hp, List.find?_cons, List.find?_cons]
        have h1 : (decide ((n, c).1 = m)) = false := by
          simp only [decide_eq_false_iff_not]
          exact fun h => hne h.symm
        have h2 : (decide (p.1 = m)) = false := by
          simp only [decide_eq_false_iff_not]
          rw [hp]
          exact fun h => hne h.symm
        rw [h1, h2]
      · rw [if_neg hp, List.find?_cons, List.find?_cons]
        by_cases hpm : p.1 = m
        · have : (decide (p.1 = m)) = true := by simpa using hpm
          rw [this]
        · have : (decide (p.1 = m)) = false := by simpa using hpm
          rw [this, ih]

theorem getCol_setCol_self (df : DF) (n : String) (c : Col) :
    (df.setCol n c).getCol n = some c := by
  rw [DF.setCol, DF.getCol]
  show ((DF.setColGo n c df.cols).find? (fun p => p.1 = n)).map Prod.snd = some c
  rw [find?_setColGo_self]
  rfl

theorem getCol_setCol_ne (df : DF) (n m : String) (c : Col) (hne : m ≠ n) :
    (df.setCol n c).getCol m = df.getCol m := by
  rw [DF.setCol, DF.getCol, DF.getCol]
  show ((DF.setColGo n c df.cols).find? (fun p => p.1 = m)).map Prod.snd = _
  rw [find?_setColGo_ne n m c df.cols hne]

theorem getCol_mem_cols {df : DF} {nm : String} {c : Col}
    (h : df.getCol nm = some c) : (nm, c) ∈ df.cols := by
  rw [DF.getCol] at h
  cases hf : df.cols.find? (fun p => p.1 = nm) with
  | none => rw [hf] at h; simp at h
  | some p =>
      rw [hf] at h
      have hpc : p.2 = c := by simpa using h
      have hmem := List.mem_of_find?_eq_some hf
      have hname : p.1 = nm := by simpa using List.find?_some hf
      have : p = (nm, c) := by
        cases p
        simp only at hpc hname
        rw [hpc, hname]
      exact this ▸ hmem

/-! ### The Finalizer as a composition of its five steps -/

theorem clean_and_finalize_eq_steps (df : DF) :
    clean_and_finalize df =
      dropAnyMissing (dropMissingLabels (fillTechnical (dropMissingCritical (replaceInfNan df)))) :=
  rfl

theorem idx_filterRows (df : DF) (m : List Bool) :
    (filterRows df m).idx = selectMask m df.idx := rfl

theorem mem_cols_filterRows {df : DF} {nm : String} {c : Col} (m : List Bool)
    (h : (nm, c) ∈ df.cols) : (nm, selectMask m c) ∈ (filterRows df m).cols :=
  List.mem_map_of_mem (fun p : String × Col => (p.1, selectMask m p.2)) h

theorem mem_cols_replaceInfNan {df : DF} {nm : String} {c : Col}
    (h : (nm, c) ∈ df.cols) : (nm, c.map infToNan) ∈ (replaceInfNan df).cols :=
  List.mem_map_of_mem (fun p : String × Col => (p.1, p.2.map infToNan)) h

theorem mem_cols_fillTechnical_of_nontech {df : DF} {nm : String} {c : Col}
    (h : (nm, c) ∈ df.cols) (htech : isTech nm = false) :
    (nm, c) ∈ (fillTechnical df).cols := by
  have hm := List.mem_map_of_mem
    (fun p : String × Col => if isTech p.1 then (p.1, bfillL (ffillL p.2)) else p) h
  dsimp only at hm
  have heq : (if isTech nm = true then (nm, bfillL (ffillL c)) else (nm, c)) = (nm, c) := by
    rw [htech]
    simp
  rw [heq] at hm
  exact hm

theorem mem_cols_fillTechnical_allnan {df : DF} {nm : String} {c : Col}
    (h : (nm, c) ∈ df.cols) (hnan : ∀ v ∈ c, v = PVal.nan) :
    ∃ c', (nm, c') ∈ (fillTechnical df).cols ∧ ∀ v ∈ c', v = PVal.nan := by
  have hm := List.mem_map_of_mem
    (fun p : String × Col => if isTech p.1 then (p.1, bfillL (ffillL p.2)) else p) h
  dsimp only at hm
  by_cases ht : isTech nm
  · refine ⟨bfillL (ffillL c), ?_, bfillL_allnan (ffillL_allnan hnan)⟩
    have heq : (if isTech nm = true then (nm, bfillL (ffillL c)) else (nm, c)) =
        (nm, bfillL (ffillL c)) := by
      rw [ht]
      simp
    rw [heq] at hm
    exact hm
  · refine ⟨c, ?_, hnan⟩
    simp only [Bool.not_eq_true] at ht
    have heq : (if isTech nm = true then (nm, bfillL (ffillL c)) else (nm, c)) = (nm, c) := by
      rw [ht]
      simp
    rw [heq] at hm
    exact hm

/-- Any DataFrame holding an all-`nan` column is emptied by the
Finalizer: its final `dropna()` removes every row. -/
theorem finalize_empty_of_allnan_col (df : DF) (nm : String) (c : Col)
    (hmem : (nm, c) ∈ df.cols) (hnan : ∀ v ∈ c, v = PVal.nan) :
    (clean_and_finalize df).idx = [] := by
  rw [clean_and_finalize_eq_steps]
  have h1 : (nm, c.map infToNan) ∈ (replaceInfNan df).cols := mem_cols_replaceInfNan hmem
  have h1n : ∀ v ∈ c.map infToNan, v = PVal.nan := map_clean_allnan hnan
  have h2 := mem_cols_filterRows (dropnaMask (replaceInfNan df) critical_features) h1
  have h2n := selectMask_allnan (m := dropnaMask (replaceInfNan df) critical_features) h1n
  obtain ⟨c3, h3, h3n⟩ := mem_cols_fillTechnical_allnan h2 h2n
  have h4 := mem_cols_filterRows
    (dropnaMask (fillTechnical (dropMissingCritical (replaceInfNan df)))
      ((fillTechnical (dropMissingCritical (replaceInfNan df))).colNames.filter
        (fun cn => isTarget cn))) h3
  have h4n := selectMask_allnan
    (m := dropnaMask (fillTechnical (dropMissingCritical (replaceInfNan df)))
      ((fillTechnical (dropMissingCritical (replaceInfNan df))).colNames.filter
        (fun cn => isTarget cn))) h3n
  have hmask := dropnaAllMask_false_of_allnan _ _ _ h4 h4n
  show selectMask _ _ = []
  exact selectMask_nil_of_false _ hmask

theorem getD_of_getElem? {xs : List α} {i : ℕ} {a : α} (d : α) (h : xs[i]? = some a) :
    i < xs.length ∧ xs.getD i d = a := by
  have hlt : i < xs.length := by
    by_contra hcon
    rw [List.getElem?_eq_none (by omega)] at h
    exact Option.noConfusion h
  refine ⟨hlt, ?_⟩
  rw [List.getD_eq_getElem _ _ hlt]
  rw [List.getElem?_eq_getElem hlt] at h
  exact Option.some.inj h

/-- A row whose cell in some non-technical column is the absence
sentinel does not survive the Finalizer: its timestamp is absent from
the final index. -/
theorem finalize_drops_of_cell_nan (df : DF) (nm : String) (c : Col) (j : ℕ)
    (hmem : (nm, c) ∈ df.cols) (htech : isTech nm = false)
    (hlen : c.length = df.idx.length) (hnd : df.idx.Nodup)
    (hj : j < df.idx.length) (hc : c.getD j PVal.nan = PVal.nan) :
    df.idx.getD j 0 ∉ (clean_and_finalize df).idx := by
  rw [clean_and_finalize_eq_steps]
  intro hfin
  set c1 := c.map infToNan with hc1def
  set m2 := dropnaMask (replaceInfNan df) critical_features with hm2def
  set df2 := dropMissingCritical (replaceInfNan df) with hdf2def
  set df3 := fillTechnical df2 with hdf3def
  set m4 := dropnaMask df3 (df3.colNames.filter (fun cn => isTarget cn)) with hm4def
  set df4 := dropMissingLabels df3 with hdf4def
  set c2 := selectMask m2 c1 with hc2def
  set c4 := selectMask m4 c2 with hc4def
  have hmem1 : (nm, c1) ∈ (replaceInfNan df).cols := mem_cols_replaceInfNan hmem
  have hmem2 : (nm, c2) ∈ df2.cols := mem_cols_filterRows m2 hmem1
  have hmem3 : (nm, c2) ∈ df3.cols := mem_cols_fillTechnical_of_nontech hmem2 htech
  have hmem4 : (nm, c4) ∈ df4.cols := mem_cols_filterRows m4 hmem3
  have hidx2 : df2.idx = selectMask m2 df.idx := rfl
  have hidx4 : df4.idx = selectMask m4 df2.idx := rfl
  have hc1len : c1.length = df.idx.length := by
    rw [hc1def, List.length_map]
    exact hlen
  have hc1j : c1.getD j PVal.nan = PVal.nan := by
    rw [hc1def, getD_map_eq _ _ _ _ (by omega), hc]
    rfl
  have hlen2 : df2.idx.length = c2.length := by
    rw [hidx2, hc2def]
    exact selectMask_length_congr m2 df.idx c1 hc1len.symm
  have hlen4 : df4.idx.length = c4.length := by
    rw [hidx4, hc4def]
    exact selectMask_length_congr m4 df2.idx c2 hlen2
  have hT4 : df.idx.getD j 0 ∈ df4.idx := mem_selectMask hfin
  obtain ⟨v, hv⟩ := exists_snd_of_mem_left hT4 hlen4
  have hzip4 : df4.idx.zip c4 = selectMask m4 (df2.idx.zip c2) := by
    rw [hidx4, hc2def, hc4def, selectMask_zip]
  have hzip2 : df2.idx.zip c2 = selectMask m2 (df.idx.zip c1) := by
    rw [hidx2, hc2def, selectMask_zip]
  have hpair1 : (df.idx.getD j 0, v) ∈ df.idx.zip c1 := by
    have h4 : (df.idx.getD j 0, v) ∈ selectMask m4 (df2.idx.zip c2) := by
      rw [← hzip4]
      exact hv
    have h2 : (df.idx.getD j 0, v) ∈ df2.idx.zip c2 := mem_selectMask h4
    rw [hzip2] at h2
    exact mem_selectMask h2
  have hpairj : (df.idx.getD j 0, c1.getD j PVal.nan) ∈ df.idx.zip c1 :=
    pair_mem_zip_of_getD 0 PVal.nan hj (by omega)
  have hveq : v = PVal.nan := by
    rw [← hc1j]
    exact zip_nodup_snd_eq hnd hpair1 hpairj
  obtain ⟨i4, hi4idx, hi4c⟩ := exists_index_of_mem_zip hv
  obtain ⟨hi4lt, hi4idxD⟩ := getD_of_getElem? 0 hi4idx
  obtain ⟨hi4clt, hi4cD⟩ := getD_of_getElem? PVal.nan hi4c
  have hbad := dropnaAllMask_bad df4 nm c4 i4 hmem4 hi4clt (by rw [hi4cD, hveq])
  have hnd4 : df4.idx.Nodup := by
    rw [hidx4, hidx2]
    exact ((selectMask_sublist m4 _).nodup ((selectMask_sublist m2 _).nodup hnd))
  have hnotmem := getD_not_mem_selectMask hnd4 hi4lt hbad
  rw [hi4idxD] at hnotmem
  exact hnotmem hfin

/-! ### Index preservation and column tracking through the stages -/

theorem idx_setCol (df : DF) (n : String) (c : Col) : (df.setCol n c).idx = df.idx :=
  rfl

theorem idx_generate_price_features (F : RealFns) (df : DF) :
    (generate_price_features F df).idx = df.idx := by
  simp only [generate_price_features, idx_setCol]

theorem idx_create_target_labels (df : DF) :
    (create_target_labels df).idx = df.idx := by
  simp only [create_target_labels, idx_setCol]

theorem idx_blockHashRate (df : DF) : (blockHashRate df).idx = df.idx := by
  unfold blockHashRate
  split <;> rfl

theorem idx_blockDifficulty (df : DF) : (blockDifficulty df).idx = df.idx := by
  unfold blockDifficulty
  split <;> rfl

theorem idx_blockTxCount (df : DF) : (blockTxCount df).idx = df.idx := by
  unfold blockTxCount
  split <;> rfl

theorem idx_blockNvt (df : DF) : (blockNvt df).idx = df.idx := by
  unfold blockNvt
  split <;> rfl

theorem idx_blockFearGreed (df : DF) : (blockFearGreed df).idx = df.idx := by
  unfold blockFearGreed
  split <;> rfl

theorem idx_blockSp500 (F : RealFns) (df : DF) : (blockSp500 F df).idx = df.idx := by
  unfold blockSp500
  split <;> rfl

theorem idx_blockVix (df : DF) : (blockVix df).idx = df.idx := by
  unfold blockVix
  split <;> rfl

theorem idx_blockDxy (F : RealFns) (df : DF) : (blockDxy F df).idx = df.idx := by
  unfold blockDxy
  split <;> rfl

theorem idx_blockGold (F : RealFns) (df : DF) : (blockGold F df).idx = df.idx := by
  unfold blockGold
  split <;> rfl

theorem idx_add_derived_features (F : RealFns) (df : DF) :
    (add_derived_features F df).idx = df.idx := by
  rw [add_derived_features, idx_blockGold, idx_blockDxy, idx_blockVix, idx_blockSp500,
    idx_blockFearGreed, idx_blockNvt, idx_blockTxCount, idx_blockDifficulty,
    idx_blockHashRate]

theorem mem_cols_blockHashRate {m : String} {cc : Col} (df : DF)
    (hm : (m, cc) ∈ df.cols) (h1 : m ≠ "hash_rate_change_7d")
    (h2 : m ≠ "hash_rate_change_30d") : (m, cc) ∈ (blockHashRate df).cols := by
  unfold blockHashRate
  split
  · exact mem_cols_setCol _ _ _ (mem_cols_setCol _ _ _ hm h1) h2
  · exact hm

theorem mem_cols_blockDifficulty {m : String} {cc : Col} (df : DF)
    (hm : (m, cc) ∈ df.cols) (h1 : m ≠ "difficulty_change_7d") :
    (m, cc) ∈ (blockDifficulty df).cols := by
  unfold blockDifficulty
  split
  · exact mem_cols_setCol _ _ _ hm h1
  · exact hm

theorem mem_cols_blockTxCount {m : String} {cc : Col} (df : DF)
    (hm : (m, cc) ∈ df.cols) (h1 : m ≠ "tx_count_change_7d")
    (h2 : m ≠ "tx_count_ma_7d") : (m, cc) ∈ (blockTxCount df).cols := by
  unfold blockTxCount
  split
  · exact mem_cols_setCol _ _ _ (mem_cols_setCol _ _ _ hm h1) h2
  · exact hm

theorem mem_cols_blockNvt {m : String} {cc : Col} (df : DF)
    (hm : (m, cc) ∈ df.cols) (h1 : m ≠ "nvt_ratio") :
    (m, cc) ∈ (blockNvt df).cols := by
  unfold blockNvt
  split
  · exact mem_cols_setCol _ _ _ hm h1
  · exact hm

theorem mem_cols_blockFearGreed {m : String} {cc : Col} (df : DF)
    (hm : (m, cc) ∈ df.cols) (h1 : m ≠ "fear_greed_change_7d")
    (h2 : m ≠ "fear_greed_ma_7d") (h3 : m ≠ "extreme_fear")
    (h4 : m ≠ "extreme_greed") : (m, cc) ∈ (blockFearGreed df).cols := by
  unfold blockFearGreed
  split
  · exact mem_cols_setCol _ _ _
      (mem_cols_setCol _ _ _ (mem_cols_setCol _ _ _ (mem_cols_setCol _ _ _ hm h1) h2) h3) h4
  · exact hm

theorem mem_cols_blockSp500 {m : String} {cc : Col} (F : RealFns) (df : DF)
    (hm : (m, cc) ∈ df.cols) (h1 : m ≠ "sp500_returns")
    (h2 : m ≠ "sp500_change_7d") (h3 : m ≠ "btc_sp500_correlation") :
    (m, cc) ∈ (blockSp500 F df).cols := by
  unfold blockSp500
  split
  · exact mem_cols_setCol _ _ _ (mem_cols_setCol _ _ _ (mem_cols_setCol _ _ _ hm h1) h2) h3
  · exact hm

theorem mem_cols_blockVix {m : String} {cc : Col} (df : DF)
    (hm : (m, cc) ∈ df.cols) (h1 : m ≠ "vix_change") (h2 : m ≠ "vix_ma_7d") :
    (m, cc) ∈ (blockVix df).cols := by
  unfold blockVix
  split
  · exact mem_cols_setCol _ _ _ (mem_cols_setCol _ _ _ hm h1) h2
  · exact hm

theorem mem_cols_blockDxy {m : String} {cc : Col} (F : RealFns) (df : DF)
    (hm : (m, cc) ∈ df.cols) (h1 : m ≠ "dxy_change")
    (h2 : m ≠ "btc_dxy_correlation") : (m, cc) ∈ (blockDxy F df).cols := by
  unfold blockDxy
  split
  · exact mem_cols_setCol _ _ _ (mem_cols_setCol _ _ _ hm h1) h2
  · exact hm

theorem mem_cols_blockGold {m : String} {cc : Col} (F : RealFns) (df : DF)
    (hm : (m, cc) ∈ df.cols) (h1 : m ≠ "gold_returns")
    (h2 : m ≠ "btc_gold_correlation") : (m, cc) ∈ (blockGold F df).cols := by
  unfold blockGold
  split
  · exact mem_cols_setCol _ _ _ (mem_cols_setCol _ _ _ hm h1) h2
  · exact hm

theorem mem_cols_create_target_labels {m : String} {cc : Col} (df : DF)
    (hm : (m, cc) ∈ df.cols) (h1 : m ≠ "target_direction_1h")
    (h2 : m ≠ "target_multiclass_1h") (h3 : m ≠ "target_return_1h") :
    (m, cc) ∈ (create_target_labels df).cols := by
  unfold create_target_labels
  exact mem_cols_setCol _ _ _ (mem_cols_setCol _ _ _ (mem_cols_setCol _ _ _ hm h1) h2) h3

/-- The 24-step forward-return column, as `generate_price_features`
computes it from the input table. -/
theorem future24_mem_gpf (F : RealFns) (df : DF) :
    ("future_return_24h",
      cmap2 df.rowCount ratioM1 (shiftNeg 24 ((df.getCol "Close").getD []))
        ((df.getCol "Close").getD [])) ∈ (generate_price_features F df).cols := by
  unfold generate_price_features
  dsimp only
  refine mem_cols_setCol _ _ _ ?_ (by decide)
  refine mem_cols_setCol _ _ _ ?_ (by decide)
  refine mem_cols_setCol _ _ _ ?_ (by decide)
  refine mem_cols_setCol _ _ _ ?_ (by decide)
  refine mem_cols_setCol _ _ _ ?_ (by decide)
  refine mem_cols_setCol _ _ _ ?_ (by decide)
  refine mem_cols_setCol _ _ _ ?_ (by decide)
  refine mem_cols_setCol _ _ _ ?_ (by decide)
  refine mem_cols_setCol _ _ _ ?_ (by decide)
  refine mem_cols_setCol _ _ _ ?_ (by decide)
  refine mem_cols_setCol _ _ _ ?_ (by decide)
  refine mem_cols_setCol _ _ _ ?_ (by decide)
  refine mem_cols_setCol _ _ _ ?_ (by decide)
  refine mem_cols_setCol _ _ _ ?_ (by decide)
  refine mem_cols_setCol _ _ _ ?_ (by decide)
  refine mem_cols_setCol _ _ _ ?_ (by decide)
  refine mem_cols_setCol _ _ _ ?_ (by decide)
  refine mem_cols_setCol _ _ _ ?_ (by decide)
  refine mem_cols_setCol _ _ _ ?_ (by decide)
  refine mem_cols_setCol _ _ _ ?_ (by decide)
  refine mem_cols_setCol _ _ _ ?_ (by decide)
  refine mem_cols_setCol _ _ _ ?_ (by decide)
  refine mem_cols_setCol _ _ _ ?_ (by decide)
  refine mem_cols_setCol _ _ _ ?_ (by decide)
  refine mem_cols_setCol _ _ _ ?_ (by decide)
  refine mem_cols_setCol _ _ _ ?_ (by decide)
  refine mem_cols_setCol _ _ _ ?_ (by decide)
  refine mem_cols_setCol _ _ _ ?_ (by decide)
  refine mem_cols_setCol _ _ _ ?_ (by decide)
  refine mem_cols_setCol _ _ _ ?_ (by decide)
  refine mem_cols_setCol _ _ _ ?_ (by decide)
  refine mem_cols_setCol _ _ _ ?_ (by decide)
  refine mem_cols_setCol _ _ _ ?_ (by decide)
  refine mem_cols_setCol _ _ _ ?_ (by decide)
  refine mem_cols_setCol _ _ _ ?_ (by decide)
  refine mem_cols_setCol _ _ _ ?_ (by decide)
  refine mem_cols_setCol _ _ _ ?_ (by decide)
  exact mem_cols_setCol_self _ _ _

/-! ### Pointwise cell lemmas -/

theorem padTo_length (n : ℕ) (xs : Col) : (padTo n xs).length = n := by
  rw [padTo, List.length_append, List.length_take, List.length_replicate]
  omega

theorem cmap2_length (n : ℕ) (op : PVal → PVal → PVal) (a b : Col) :
    (cmap2 n op a b).length = n := by
  rw [cmap2, List.length_zipWith, padTo_length, padTo_length]
  omega

theorem cmap2_getD (n : ℕ) (op : PVal → PVal → PVal) (a b : Col) (j : ℕ) (hj : j < n) :
    (cmap2 n op a b).getD j PVal.nan =
      op ((padTo n a).getD j PVal.nan) ((padTo n b).getD j PVal.nan) := by
  have hlen : j < (List.zipWith op (padTo n a) (padTo n b)).length := by
    rw [List.length_zipWith, padTo_length, padTo_length]
    omega
  show (List.zipWith op (padTo n a) (padTo n b)).getD j PVal.nan = _
  rw [List.getD_eq_getElem _ _ hlen, List.getElem_zipWith,
    List.getD_eq_getElem _ _ (by rw [padTo_length]; omega),
    List.getD_eq_getElem _ _ (by rw [padTo_length]; omega)]

theorem getD_replicate_nan (k i : ℕ) :
    (List.replicate k PVal.nan).getD i PVal.nan = PVal.nan := by
  by_cases h : i < k
  · rw [List.getD_eq_getElem _ _ (by simpa using h)]
    simp
  · rw [List.getD_eq_default _ _ (by simpa using h)]

theorem shiftNeg_length (k : ℕ) (xs : Col) : (shiftNeg k xs).length = xs.length := by
  rw [shiftNeg, List.length_append, List.length_drop, List.length_replicate]
  omega

theorem shiftNeg_getD_nan (xs : Col) (k j : ℕ) (h : xs.length ≤ j + k) :
    (shiftNeg k xs).getD j PVal.nan = PVal.nan := by
  have hdl : (xs.drop k).length ≤ j := by
    rw [List.length_drop]
    omega
  show (xs.drop k ++ List.replicate (min k xs.length) PVal.nan).getD j PVal.nan = PVal.nan
  rw [List.getD_append_right _ _ _ _ hdl]
  exact getD_replicate_nan _ _

theorem padTo_getD_nan_of (xs : Col) (n j : ℕ)
    (hx : xs.getD j PVal.nan = PVal.nan) :
    (padTo n xs).getD j PVal.nan = PVal.nan := by
  show (xs.take n ++ List.replicate (n - xs.length) PVal.nan).getD j PVal.nan = PVal.nan
  by_cases hjt : j < (xs.take n).length
  · rw [List.getD_append _ _ _ _ hjt]
    rw [List.getD_eq_getElem _ _ hjt, List.getElem_take]
    have hjx : j < xs.length := by
      rw [List.length_take] at hjt
      omega
    rw [List.getD_eq_getElem _ _ hjx] at hx
    exact hx
  · rw [List.getD_append_right _ _ _ _ (by omega)]
    exact getD_replicate_nan _ _

theorem padTo_shiftNeg_getD_nan (xs : Col) (n k j : ℕ) (_hj : j < n)
    (h : xs.length ≤ j + k) :
    (padTo n (shiftNeg k xs)).getD j PVal.nan = PVal.nan :=
  padTo_getD_nan_of _ _ _ (shiftNeg_getD_nan xs k j h)

theorem getCol_setCol_cases (df : DF) (n m : String) (c : Col) :
    (df.setCol n c).getCol m = if m = n then some c else df.getCol m := by
  by_cases h : m = n
  · subst h
    rw [if_pos rfl]
    exact getCol_setCol_self df m c
  · rw [if_neg h]
    exact getCol_setCol_ne df n m c h

theorem getCol_gpf_future1 (F : RealFns) (df : DF) :
    (generate_price_features F df).getCol "future_return_1h" =
      some (cmap2 df.rowCount ratioM1 (shiftNeg 1 ((df.getCol "Close").getD []))
        ((df.getCol "Close").getD [])) := by
  unfold generate_price_features
  dsimp only
  simp only [getCol_setCol_cases]
  simp

theorem getCol_gpf_future6 (F : RealFns) (df : DF) :
    (generate_price_features F df).getCol "future_return_6h" =
      some (cmap2 df.rowCount ratioM1 (shiftNeg 6 ((df.getCol "Close").getD []))
        ((df.getCol "Close").getD [])) := by
  unfold generate_price_features
  dsimp only
  simp only [getCol_setCol_cases]
  simp

theorem getCol_gpf_future24 (F : RealFns) (df : DF) :
    (generate_price_features F df).getCol "future_return_24h" =
      some (cmap2 df.rowCount ratioM1 (shiftNeg 24 ((df.getCol "Close").getD []))
        ((df.getCol "Close").getD [])) := by
  unfold generate_price_features
  dsimp only
  simp only [getCol_setCol_cases]
  simp

theorem getCol_gpf_volume_momentum (F : RealFns) (df : DF) :
    (generate_price_features F df).getCol "volume_momentum" =
      some (cmap2 df.rowCount ratioM1 ((df.getCol "Volume").getD [])
        (shiftPos 24 ((df.getCol "Volume").getD []))) := by
  unfold generate_price_features
  dsimp only
  simp only [getCol_setCol_cases]
  simp

theorem getCol_labels_direction (df : DF) :
    (create_target_labels df).getCol "target_direction_1h" =
      some (((df.getCol "future_return_1h").getD []).map
        (fun v => PVal.num (if v.gt0 then 1 else 0))) := by
  unfold create_target_labels
  dsimp only
  simp only [getCol_setCol_cases]
  simp

theorem getCol_labels_multiclass (df : DF) :
    (create_target_labels df).getCol "target_multiclass_1h" =
      some (((df.getCol "future_return_1h").getD []).map cut5) := by
  unfold create_target_labels
  dsimp only
  simp only [getCol_setCol_cases]
  simp

theorem ratioM1_nan_left (b : PVal) : ratioM1 PVal.nan b = PVal.nan := by
  cases b <;> rfl

/-- Rows in the final 24-row tail of any OHLCV input never survive the
pipeline: their 24-step forward return is undefined, the column is not
name-classified as technical, and the Finalizer's last `dropna()`
removes such rows. -/
theorem pipeline_drops_last24 (F : RealFns) (df : DF) (hwf : DF.wf df)
    (hnd : df.idx.Nodup) (j : ℕ) (hj : j < df.rowCount)
    (htail : df.rowCount ≤ j + 24) :
    df.idx.getD j 0 ∉ (generate_all_features F df none none none).idx := by
  have hstep : generate_all_features F df none none none =
      clean_and_finalize (create_target_labels
        (add_derived_features F (generate_price_features F df))) := rfl
  rw [hstep]
  set pre := create_target_labels (add_derived_features F (generate_price_features F df))
    with hpre
  set close := (df.getCol "Close").getD [] with hclose
  set FUT := cmap2 df.rowCount ratioM1 (shiftNeg 24 close) close with hFUT
  have hmem : ("future_return_24h", FUT) ∈ pre.cols := by
    rw [hpre]
    refine mem_cols_create_target_labels _ ?_ (by decide) (by decide) (by decide)
    refine mem_cols_blockGold _ _ ?_ (by decide) (by decide)
    refine mem_cols_blockDxy _ _ ?_ (by decide) (by decide)
    refine mem_cols_blockVix _ ?_ (by decide) (by decide)
    refine mem_cols_blockSp500 _ _ ?_ (by decide) (by decide) (by decide)
    refine mem_cols_blockFearGreed _ ?_ (by decide) (by decide) (by decide) (by decide)
    refine mem_cols_blockNvt _ ?_ (by decide)
    refine mem_cols_blockTxCount _ ?_ (by decide) (by decide)
    refine mem_cols_blockDifficulty _ ?_ (by decide)
    refine mem_cols_blockHashRate _ ?_ (by decide) (by decide)
    exact future24_mem_gpf F df
  have hidx : pre.idx = df.idx := by
    rw [hpre, idx_create_target_labels, idx_add_derived_features,
      idx_generate_price_features]
  have hcloselen : close.length ≤ df.rowCount := by
    rw [hclose]
    cases hgc : df.getCol "Close" with
    | none => simp
    | some c =>
        have := hwf ("Close", c) (getCol_mem_cols hgc)
        simp only [hgc, Option.getD_some]
        rw [this]
        exact le_refl _
  have hcell : FUT.getD j PVal.nan = PVal.nan := by
    rw [hFUT, cmap2_getD _ _ _ _ _ hj,
      padTo_shiftNeg_getD_nan close df.rowCount 24 j hj (by omega),
      ratioM1_nan_left]
  have := finalize_drops_of_cell_nan pre "future_return_24h" FUT j hmem (by decide)
    (by rw [hFUT, cmap2_length, hidx]; rfl) (by rw [hidx]; exact hnd)
    (by rw [hidx]; exact hj) hcell
  rw [hidx] at this
  exact this

theorem qAdd_eq (a b : ℚ) : qAdd a b = a + b := by
  rw [qAdd, Rat.mkRat_eq_divInt, Rat.add_num_den]
  push_cast
  congr 1
  ring

theorem qNeg_eq (a : ℚ) : qNeg a = -a := by
  rw [qNeg, Rat.mkRat_eq_divInt, Rat.neg_def]

theorem qSub_eq (a b : ℚ) : qSub a b = a - b := by
  rw [qSub, qAdd_eq, qNeg_eq, sub_eq_add_neg]

theorem qMul_eq (a b : ℚ) : qMul a b = a * b := by
  rw [qMul, Rat.mkRat_eq_divInt]
  push_cast
  rw [← Rat.divInt_mul_divInt', Rat.num_divInt_den, Rat.num_divInt_den]

theorem qDiv_eq (a b : ℚ) : qDiv a b = a / b := by
  rcases lt_or_le b.num 0 with h | h
  · rw [qDiv, if_pos h, Rat.mkRat_eq_divInt, Rat.div_def']
    have habs : ((b.num.natAbs : ℕ) : ℤ) = -b.num := by omega
    push_cast [habs]
    rw [show ((a.den : ℤ) * -b.num) = -((a.den : ℤ) * b.num) from by ring,
      Rat.divInt_neg, neg_neg]
  · rw [qDiv, if_neg (not_lt.mpr h), Rat.mkRat_eq_divInt, Rat.div_def']
    have habs : ((b.num.natAbs : ℕ) : ℤ) = b.num := by omega
    push_cast [habs]
    rfl

theorem qAbs_eq (a : ℚ) : qAbs a = |a| := by
  rcases le_or_lt 0 a.num with h | h
  · rw [qAbs, Int.natAbs_of_nonneg h, Rat.mkRat_eq_divInt, Rat.num_divInt_den,
      abs_of_nonneg (Rat.num_nonneg.mp h)]
  · have habs : ((a.num.natAbs : ℕ) : ℤ) = -a.num := by omega
    rw [qAbs, habs, Rat.mkRat_eq_divInt, ← Rat.neg_def,
      abs_of_neg (by rw [← not_le, ← Rat.num_nonneg]; omega)]

/-! ### In-range pointwise access -/

theorem padTo_getD_eq (xs : Col) (n j : ℕ) (hj : j < n) (hx : j < xs.length) :
    (padTo n xs).getD j PVal.nan = xs.getD j PVal.nan := by
  show (xs.take n ++ List.replicate (n - xs.length) PVal.nan).getD j PVal.nan = _
  have hjt : j < (xs.take n).length := by
    rw [List.length_take]
    omega
  rw [List.getD_append _ _ _ _ hjt, List.getD_eq_getElem _ _ hjt, List.getElem_take,
    List.getD_eq_getElem _ _ hx]

theorem shiftNeg_getD_eq (xs : Col) (k j : ℕ) (h : j + k < xs.length) :
    (shiftNeg k xs).getD j PVal.nan = xs.getD (j + k) PVal.nan := by
  show (xs.drop k ++ List.replicate (min k xs.length) PVal.nan).getD j PVal.nan = _
  have hjd : j < (xs.drop k).length := by
    rw [List.length_drop]
    omega
  rw [List.getD_append _ _ _ _ hjd, List.getD_eq_getElem _ _ hjd, List.getElem_drop,
    List.getD_eq_getElem _ _ h]
  congr 1
  omega

theorem shiftPos_getD_eq (xs : Col) (k j : ℕ) (hk : k ≤ j) (hj : j < xs.length) :
    (shiftPos k xs).getD j PVal.nan = xs.getD (j - k) PVal.nan := by
  show (List.replicate (min k xs.length) PVal.nan ++ xs.take (xs.length - k)).getD j
      PVal.nan = _
  have hge : (List.replicate (min k xs.length) PVal.nan).length ≤ j := by
    rw [List.length_replicate]
    omega
  rw [List.getD_append_right _ _ _ _ hge, List.length_replicate]
  have hmin : min k xs.length = k := by omega
  rw [hmin]
  have hjt : j - k < (xs.take (xs.length - k)).length := by
    rw [List.length_take]
    omega
  rw [List.getD_eq_getElem _ _ hjt, List.getElem_take, List.getD_eq_getElem _ _ (by omega)]

theorem ratioM1_num_num (a b : ℚ) (hb : b ≠ 0) :
    ratioM1 (PVal.num a) (PVal.num b) = PVal.num (a / b - 1) := by
  show PVal.add (PVal.div (PVal.num a) (PVal.num b)) (PVal.neg (PVal.num 1)) = _
  rw [PVal.div, if_neg hb, PVal.neg, PVal.add, qDiv_eq, qNeg_eq, qAdd_eq]
  norm_num
  rw [sub_eq_add_neg]

theorem ratioM1_div_zero_pos (q : ℚ) (hq : 0 < q) :
    ratioM1 (PVal.num q) (PVal.num 0) = PVal.inf := by
  show PVal.add (PVal.div (PVal.num q) (PVal.num 0)) (PVal.neg (PVal.num 1)) = _
  rw [PVal.div, if_pos rfl, if_neg (ne_of_gt hq), if_pos hq]
  rfl

theorem ratioM1_nan_right (a : PVal) : ratioM1 a PVal.nan = PVal.nan := by
  cases a <;> rfl

/-- The forward-return column (`Close.shift(-k) / Close - 1`) is `nan` on
the final `k` rows and equals the ratio formula elsewhere. -/
theorem future_return_col_spec (n k : ℕ) (close : Col) (hlen : close.length = n)
    (t : ℕ) (ht : t < n) :
    (n ≤ t + k → (cmap2 n ratioM1 (shiftNeg k close) close).getD t PVal.nan = PVal.nan) ∧
    (∀ a b : ℚ, t + k < n → close.getD t PVal.nan = PVal.num a →
      close.getD (t + k) PVal.nan = PVal.num b → a ≠ 0 →
      (cmap2 n ratioM1 (shiftNeg k close) close).getD t PVal.nan = PVal.num (b / a - 1)) := by
  constructor
  · intro htail
    rw [cmap2_getD _ _ _ _ _ ht,
      padTo_shiftNeg_getD_nan close n k t ht (by omega), ratioM1_nan_left]
  · intro a b hlt ha hb hane
    rw [cmap2_getD _ _ _ _ _ ht,
      padTo_getD_eq _ _ _ ht (by rw [shiftNeg_length]; omega),
      padTo_getD_eq _ _ _ ht (by omega),
      shiftNeg_getD_eq close k t (by omega), ha, hb]
    exact ratioM1_num_num b a hane

/-- C1: forward returns look ahead by the horizon and are undefined on
the final rows of each horizon. -/
theorem C1_forward_returns (F : RealFns) (df : DF) (close : Col)
    (hc : df.getCol "Close" = some close) (hlen : close.length = df.rowCount)
    (t : ℕ) (ht : t < df.rowCount) :
    (df.rowCount ≤ t + 1 →
      DF.cell (generate_price_features F df) "future_return_1h" t = PVal.nan) ∧
    (df.rowCount ≤ t + 6 →
      DF.cell (generate_price_features F df) "future_return_6h" t = PVal.nan) ∧
    (df.rowCount ≤ t + 24 →
      DF.cell (generate_price_features F df) "future_return_24h" t = PVal.nan) ∧
    (∀ a b : ℚ, t + 1 < df.rowCount → close.getD t PVal.nan = PVal.num a →
      close.getD (t + 1) PVal.nan = PVal.num b → a ≠ 0 →
      DF.cell (generate_price_features F df) "future_return_1h" t = PVal.num (b / a - 1)) ∧
    (∀ a b : ℚ, t + 6 < df.rowCount → close.getD t PVal.nan = PVal.num a →
      close.getD (t + 6) PVal.nan = PVal.num b → a ≠ 0 →
      DF.cell (generate_price_features F df) "future_return_6h" t = PVal.num (b / a - 1)) ∧
    (∀ a b : ℚ, t + 24 < df.rowCount → close.getD t PVal.nan = PVal.num a →
      close.getD (t + 24) PVal.nan = PVal.num b → a ≠ 0 →
      DF.cell (generate_price_features F df) "future_return_24h" t = PVal.num (b / a - 1)) := by
  have h1 : DF.cell (generate_price_features F df) "future_return_1h" t =
      (cmap2 df.rowCount ratioM1 (shiftNeg 1 close) close).getD t PVal.nan := by
    rw [DF.cell, getCol_gpf_future1, hc, Option.getD_some, Option.getD_some]
  have h6 : DF.cell (generate_price_features F df) "future_return_6h" t =
      (cmap2 df.rowCount ratioM1 (shiftNeg 6 close) close).getD t PVal.nan := by
    rw [DF.cell, getCol_gpf_future6, hc, Option.getD_some, Option.getD_some]
  have h24 : DF.cell (generate_price_features F df) "future_return_24h" t =
      (cmap2 df.rowCount ratioM1 (shiftNeg 24 close) close).getD t PVal.nan := by
    rw [DF.cell, getCol_gpf_future24, hc, Option.getD_some, Option.getD_some]
  refine ⟨?_, ?_, ?_, ?_, ?_, ?_⟩
  · intro htail
    rw [h1]
    exact (future_return_col_spec df.rowCount 1 close hlen t ht).1 htail
  · intro htail
    rw [h6]
    exact (future_return_col_spec df.rowCount 6 close hlen t ht).1 htail
  · intro htail
    rw [h24]
    exact (future_return_col_spec df.rowCount 24 close hlen t ht).1 htail
  · intro a b hlt ha hb hane
    rw [h1]
    exact (future_return_col_spec df.rowCount 1 close hlen t ht).2 a b hlt ha hb hane
  · intro a b hlt ha hb hane
    rw [h6]
    exact (future_return_col_spec df.rowCount 6 close hlen t ht).2 a b hlt ha hb hane
  · intro a b hlt ha hb hane
    rw [h24]
    exact (future_return_col_spec df.rowCount 24 close hlen t ht).2 a b hlt ha hb hane

/-- Witness for C1 on a concrete three-row Close column. -/
theorem C1_forward_returns_witness :
    0 < closeFrame.rowCount ∧
    DF.cell (generate_price_features idFns closeFrame) "future_return_1h" 0 = PVal.num 1 ∧
    DF.cell (generate_price_features idFns closeFrame) "future_return_6h" 0 = PVal.nan := by
  have h := C1_forward_returns idFns closeFrame [PVal.num 1, PVal.num 2, PVal.num 4]
    (by decide) (by decide) 0 (by decide)
  refine ⟨by decide, ?_, h.2.1 (by decide)⟩
  have hv := h.2.2.2.1 1 2 (by decide) (by decide) (by decide) (by norm_num)
  rw [hv]
  norm_num

/-- C2: the five-way label is the right-closed binning of the 1-hour
forward return at thresholds -1%, -0.2%, 0.2%, 1%. -/
theorem C2_multiclass_label (df : DF) (t : ℕ) (r : ℚ)
    (ht : t < ((df.getCol "future_return_1h").getD []).length)
    (hr : ((df.getCol "future_return_1h").getD []).getD t PVal.nan = PVal.num r) :
    (DF.cell (create_target_labels df) "target_multiclass_1h" t = PVal.num 0 ↔
      r ≤ -(1/100)) ∧
    (DF.cell (create_target_labels df) "target_multiclass_1h" t = PVal.num 1 ↔
      (-(1/100) < r ∧ r ≤ -(1/500))) ∧
    (DF.cell (create_target_labels df) "target_multiclass_1h" t = PVal.num 2 ↔
      (-(1/500) < r ∧ r ≤ 1/500)) ∧
    (DF.cell (create_target_labels df) "target_multiclass_1h" t = PVal.num 3 ↔
      (1/500 < r ∧ r ≤ 1/100)) ∧
    (DF.cell (create_target_labels df) "target_multiclass_1h" t = PVal.num 4 ↔
      1/100 < r) := by
  have hcell : DF.cell (create_target_labels df) "target_multiclass_1h" t =
      cut5 (PVal.num r) := by
    rw [DF.cell, getCol_labels_multiclass, Option.getD_some, getD_map_eq _ _ _ _ ht, hr]
  have e1 : (mkRat (-1) 100 : ℚ) = -(1/100) := by
    rw [Rat.mkRat_eq_div]
    norm_num
  have e2 : (mkRat (-1) 500 : ℚ) = -(1/500) := by
    rw [Rat.mkRat_eq_div]
    norm_num
  have e3 : (mkRat 1 500 : ℚ) = 1/500 := by
    rw [Rat.mkRat_eq_div]
    norm_num
  have e4 : (mkRat 1 100 : ℚ) = 1/100 := by
    rw [Rat.mkRat_eq_div]
    norm_num
  rw [hcell]
  simp only [cut5, e1, e2, e3, e4]
  split_ifs with h1 h2 h3 h4 <;>
    simp only [PVal.num.injEq] <;>
    norm_num <;>
    (repeat' constructor) <;>
    intros <;>
    linarith

/-- Witness for C2 at the exact -1% boundary. -/
theorem C2_multiclass_label_witness :
    DF.cell (create_target_labels boundaryFrame) "target_multiclass_1h" 0 = PVal.num 0 := by
  exact (C2_multiclass_label boundaryFrame 0 (mkRat (-1) 100) (by decide) (by decide)).1.mpr
    (by rw [Rat.mkRat_eq_div]; norm_num)

/-- C10: the direction label is total (never missing): 1 exactly when the
forward return is strictly positive under numpy comparison, 0 otherwise,
and in particular 0 when the forward return is missing. -/
theorem C10_direction_label (df : DF) (t : ℕ)
    (ht : t < ((df.getCol "future_return_1h").getD []).length) :
    DF.cell (create_target_labels df) "target_direction_1h" t ≠ PVal.nan ∧
    (DF.cell (create_target_labels df) "target_direction_1h" t = PVal.num 1 ↔
      (((df.getCol "future_return_1h").getD []).getD t PVal.nan).gt0 = true) ∧
    (DF.cell (create_target_labels df) "target_direction_1h" t = PVal.num 0 ↔
      (((df.getCol "future_return_1h").getD []).getD t PVal.nan).gt0 = false) ∧
    (((df.getCol "future_return_1h").getD []).getD t PVal.nan = PVal.nan →
      DF.cell (create_target_labels df) "target_direction_1h" t = PVal.num 0) := by
  have hcell : DF.cell (create_target_labels df) "target_direction_1h" t =
      PVal.num (if (((df.getCol "future_return_1h").getD []).getD t PVal.nan).gt0
        then 1 else 0) := by
    rw [DF.cell, getCol_labels_direction, Option.getD_some, getD_map_eq _ _ _ _ ht]
  refine ⟨?_, ?_, ?_, ?_⟩
  · rw [hcell]
    split <;> simp
  · rw [hcell]
    cases hgt : (((df.getCol "future_return_1h").getD []).getD t PVal.nan).gt0 <;>
      simp [hgt]
  · rw [hcell]
    cases hgt : (((df.getCol "future_return_1h").getD []).getD t PVal.nan).gt0 <;>
      simp [hgt]
  · intro hnan
    rw [hcell, hnan]
    rfl

/-- Witness for C10 on the boundary frame (non-positive return gives
label 0, and the label is present). -/
theorem C10_direction_label_witness :
    DF.cell (create_target_labels boundaryFrame) "target_direction_1h" 0 ≠ PVal.nan ∧
    DF.cell (create_target_labels boundaryFrame) "target_direction_1h" 0 = PVal.num 0 := by
  have h := C10_direction_label boundaryFrame 0 (by decide)
  exact ⟨h.1, h.2.2.1.mpr (by decide)⟩

theorem cols_filterRows (df : DF) (m : List Bool) :
    (filterRows df m).cols = df.cols.map (fun p => (p.1, selectMask m p.2)) := rfl

/-- C3: in the finalised table, the critical columns contain no missing
cell (in fact no surviving column does: the last Finalizer step drops
every row still holding the absence sentinel). -/
theorem C3_critical_columns_complete (df : DF) (nm : String)
    (_hnm : nm ∈ critical_features) (c : Col)
    (hc : (clean_and_finalize df).getCol nm = some c) :
    ∀ v ∈ c, v ≠ PVal.nan := by
  intro v hv
  have hmem : (nm, c) ∈ (clean_and_finalize df).cols := getCol_mem_cols hc
  rw [clean_and_finalize_eq_steps, dropAnyMissing, cols_filterRows] at hmem
  obtain ⟨p, hp, himg⟩ := List.mem_map.mp hmem
  cases p with
  | mk pn pc =>
    dsimp only at himg
    rw [Prod.mk.injEq] at himg
    obtain ⟨hpn, hpc⟩ := himg
    rw [← hpc] at hv
    obtain ⟨i, hbit, hget⟩ := exists_index_of_mem_selectMask hv
    obtain ⟨hlt, hgd⟩ := getD_of_getElem? PVal.nan hget
    have hcell := dropnaAllMask_true_cell _ pn pc i hp hbit
    rw [hgd] at hcell
    exact hcell.2

/-- Witness for C3 on a concrete frame with one unrecoverable row. -/
theorem C3_critical_columns_complete_witness :
    "Close" ∈ critical_features ∧
    (clean_and_finalize criticalFrame).getCol "Close" = some [PVal.num 1] ∧
    ∀ v ∈ [PVal.num 1], v ≠ PVal.nan := by
  refine ⟨by decide, by decide, ?_⟩
  exact C3_critical_columns_complete criticalFrame "Close" (by decide) [PVal.num 1]
    (by decide)

/-- C4: the Finalizer runs its five steps in the documented order, and
the report counts initial rows, critically-dropped rows, other dropped
rows, final rows, and the retention percentage. -/
theorem C4_finalizer_pipeline (df : DF) (h : 0 < df.rowCount) :
    clean_and_finalize df =
      dropAnyMissing (dropMissingLabels (fillTechnical
        (dropMissingCritical (replaceInfNan df)))) ∧
    finalizeReport df = some ⟨df.rowCount,
      df.rowCount - (dropMissingCritical (replaceInfNan df)).rowCount,
      (df.rowCount - (clean_and_finalize df).rowCount) -
        (df.rowCount - (dropMissingCritical (replaceInfNan df)).rowCount),
      (clean_and_finalize df).rowCount,
      ((clean_and_finalize df).rowCount : ℚ) / (df.rowCount : ℚ) * 100⟩ := by
  refine ⟨clean_and_finalize_eq_steps df, ?_⟩
  have hrep : finalizeReport df = (if df.rowCount = 0 then none else some ⟨df.rowCount,
      df.rowCount - (dropMissingCritical (replaceInfNan df)).rowCount,
      (df.rowCount - (clean_and_finalize df).rowCount) -
        (df.rowCount - (dropMissingCritical (replaceInfNan df)).rowCount),
      (clean_and_finalize df).rowCount,
      qMul (qDiv ((clean_and_finalize df).rowCount : ℚ) (df.rowCount : ℚ)) 100⟩) := rfl
  rw [hrep, if_neg (by omega), qMul_eq, qDiv_eq]

/-- Witness for C4 on a concrete nonempty frame. -/
theorem C4_finalizer_pipeline_witness :
    0 < criticalFrame.rowCount ∧
    (clean_and_finalize criticalFrame =
      dropAnyMissing (dropMissingLabels (fillTechnical
        (dropMissingCritical (replaceInfNan criticalFrame)))) ∧
    finalizeReport criticalFrame = some ⟨criticalFrame.rowCount,
      criticalFrame.rowCount -
        (dropMissingCritical (replaceInfNan criticalFrame)).rowCount,
      (criticalFrame.rowCount - (clean_and_finalize criticalFrame).rowCount) -
        (criticalFrame.rowCount -
          (dropMissingCritical (replaceInfNan criticalFrame)).rowCount),
      (clean_and_finalize criticalFrame).rowCount,
      ((clean_and_finalize criticalFrame).rowCount : ℚ) /
        (criticalFrame.rowCount : ℚ) * 100⟩) :=
  ⟨by decide, C4_finalizer_pipeline criticalFrame (by decide)⟩

/-- C5: merging an external source keeps every OHLCV row (left join on
the hourly index), and the joined columns are forward-filled,
backward-filled and median-imputed; a cell still missing after the fills
receives the column median. -/
theorem C5_merge_semantics (df src : DF) (srcName : String) :
    (merge_external_data df srcName src).idx = df.idx ∧
    (¬(src.idx.isEmpty ∨ src.cols.isEmpty) →
      ∀ nm c2, (nm, c2) ∈ (resampleHourlyFfill src).cols →
        (nm, fillnaL
            (medianL (bfillL (ffillL (df.idx.map (fun t =>
              joinLookup (resampleHourlyFfill src).idx c2 t)))))
            (bfillL (ffillL (df.idx.map (fun t =>
              joinLookup (resampleHourlyFfill src).idx c2 t))))) ∈
          (merge_external_data df srcName src).cols) ∧
    (∀ (fc : Col) (i : ℕ), i < fc.length → fc.getD i PVal.nan = PVal.nan →
      (fillnaL (medianL fc) fc).getD i PVal.nan = medianL fc) := by
  refine ⟨?_, ?_, ?_⟩
  · by_cases h : src.idx.isEmpty ∨ src.cols.isEmpty
    · rw [merge_external_data, if_pos h]
    · rw [merge_external_data, if_neg h]
      rfl
  · intro hne nm c2 hmem
    rw [merge_external_data, if_neg hne]
    have hname : nm ∈ (resampleHourlyFfill src).colNames := by
      have := List.mem_map_of_mem (@Prod.fst String Col) hmem
      exact this
    have hj : (nm, df.idx.map (fun t =>
        joinLookup (resampleHourlyFfill src).idx c2 t)) ∈
        (leftJoin df (resampleHourlyFfill src)).cols := by
      refine List.mem_append_right _ ?_
      exact List.mem_map_of_mem _ hmem
    have h1 := List.mem_map_of_mem (fun p : String × Col =>
      if p.1 ∈ (resampleHourlyFfill src).colNames then (p.1, bfillL (ffillL p.2))
      else p) hj
    rw [show (fun p : String × Col =>
        if p.1 ∈ (resampleHourlyFfill src).colNames then (p.1, bfillL (ffillL p.2))
        else p) (nm, df.idx.map (fun t =>
          joinLookup (resampleHourlyFfill src).idx c2 t)) =
      (nm, bfillL (ffillL (df.idx.map (fun t =>
        joinLookup (resampleHourlyFfill src).idx c2 t)))) from by
        dsimp only
        rw [if_pos hname]] at h1
    have h2 := List.mem_map_of_mem (fun p : String × Col =>
      if p.1 ∈ (resampleHourlyFfill src).colNames then (p.1, fillnaL (medianL p.2) p.2)
      else p) h1
    rw [show (fun p : String × Col =>
        if p.1 ∈ (resampleHourlyFfill src).colNames then (p.1, fillnaL (medianL p.2) p.2)
        else p) (nm, bfillL (ffillL (df.idx.map (fun t =>
          joinLookup (resampleHourlyFfill src).idx c2 t)))) =
      (nm, fillnaL
        (medianL (bfillL (ffillL (df.idx.map (fun t =>
          joinLookup (resampleHourlyFfill src).idx c2 t)))))
        (bfillL (ffillL (df.idx.map (fun t =>
          joinLookup (resampleHourlyFfill src).idx c2 t))))) from by
        dsimp only
        rw [if_pos hname]] at h2
    exact h2
  · intro fc i hi hnan
    rw [fillnaL, getD_map_eq _ _ _ _ hi, hnan, if_pos rfl]

/-- Witness for C5: a disjoint one-row sentiment source joined onto a
three-row frame. -/
theorem C5_merge_semantics_witness :
    ¬(lateSentiment.idx.isEmpty ∨ lateSentiment.cols.isEmpty) ∧
    (merge_external_data closeFrame "sentiment" lateSentiment).idx = closeFrame.idx ∧
    ("fear_greed_value",
        fillnaL (medianL (bfillL (ffillL (closeFrame.idx.map (fun t =>
          joinLookup (resampleHourlyFfill lateSentiment).idx [PVal.num 50] t)))))
          (bfillL (ffillL (closeFrame.idx.map (fun t =>
            joinLookup (resampleHourlyFfill lateSentiment).idx [PVal.num 50] t))))) ∈
      (merge_external_data closeFrame "sentiment" lateSentiment).cols := by
  have h := C5_merge_semantics closeFrame lateSentiment "sentiment"
  exact ⟨by decide, h.1, h.2.1 (by decide) "fear_greed_value" [PVal.num 50] (by decide)⟩

theorem shiftPos_length (k : ℕ) (xs : Col) : (shiftPos k xs).length = xs.length := by
  rw [shiftPos, List.length_append, List.length_replicate, List.length_take]
  omega

/-- C9 (amended): the 24-hour volume momentum divides the current volume
by the volume 24 rows back with numpy float semantics: a missing operand
gives `nan`, positive over zero gives `+inf` (not `nan`), zero over zero
gives `nan`, and a nonzero denominator gives the finite ratio; infinities
are converted to the absence sentinel only later, by the Finalizer's
first step. -/
theorem C9_division_semantics (F : RealFns) (df : DF) (vol : Col)
    (hv : df.getCol "Volume" = some vol) (hlen : vol.length = df.rowCount)
    (t : ℕ) (ht : t < df.rowCount) (h24 : 24 ≤ t) :
    (vol.getD t PVal.nan = PVal.nan →
      DF.cell (generate_price_features F df) "volume_momentum" t = PVal.nan) ∧
    (∀ q : ℚ, vol.getD t PVal.nan = PVal.num q → 0 < q →
      vol.getD (t - 24) PVal.nan = PVal.num 0 →
      DF.cell (generate_price_features F df) "volume_momentum" t = PVal.inf) ∧
    (vol.getD t PVal.nan = PVal.num 0 → vol.getD (t - 24) PVal.nan = PVal.num 0 →
      DF.cell (generate_price_features F df) "volume_momentum" t = PVal.nan) ∧
    (∀ q r : ℚ, vol.getD t PVal.nan = PVal.num q →
      vol.getD (t - 24) PVal.nan = PVal.num r → r ≠ 0 →
      DF.cell (generate_price_features F df) "volume_momentum" t =
        PVal.num (q / r - 1)) ∧
    (∀ (c : Col) (i : ℕ), i < c.length → c.getD i PVal.nan = PVal.inf →
      (c.map infToNan).getD i PVal.nan = PVal.nan) := by
  have hcell : DF.cell (generate_price_features F df) "volume_momentum" t =
      ratioM1 (vol.getD t PVal.nan) (vol.getD (t - 24) PVal.nan) := by
    rw [DF.cell, getCol_gpf_volume_momentum, hv, Option.getD_some, Option.getD_some,
      cmap2_getD _ _ _ _ _ ht,
      padTo_getD_eq _ _ _ ht (by omega),
      padTo_getD_eq _ _ _ ht (by rw [shiftPos_length]; omega),
      shiftPos_getD_eq vol 24 t h24 (by omega)]
  refine ⟨?_, ?_, ?_, ?_, ?_⟩
  · intro hnan
    rw [hcell, hnan, ratioM1_nan_left]
  · intro q hq hpos h0
    rw [hcell, hq, h0]
    exact ratioM1_div_zero_pos q hpos
  · intro h1 h0
    rw [hcell, h1, h0]
    decide
  · intro q r hq hr hr0
    rw [hcell, hq, hr]
    exact ratioM1_num_num q r hr0
  · intro c i hi hinf
    rw [getD_map_eq _ _ _ _ hi, hinf]
    rfl

/-- C9 counterexample: with volume 0 at hour 0 and 5 at hour 24, the
volume-momentum cell is `+inf` right after `generate_price_features` —
the spec says a division by zero yields a missing value at this point. -/
theorem C9_zero_volume_gives_inf :
    DF.cell (generate_price_features idFns volFrame) "volume_momentum" 24 =
      PVal.inf := by
  decide

/-- Witness for C9 (amended) on the same concrete frame. -/
theorem C9_division_semantics_witness :
    volFrame.getCol "Volume" = some (PVal.num 0 :: List.replicate 24 (PVal.num 5)) ∧
    24 < volFrame.rowCount ∧
    DF.cell (generate_price_features idFns volFrame) "volume_momentum" 24 =
      PVal.inf := by
  have h := C9_division_semantics idFns volFrame
    (PVal.num 0 :: List.replicate 24 (PVal.num 5)) (by decide) (by decide)
    24 (by decide) (by decide)
  exact ⟨by decide, by decide, h.2.1 5 (by decide) (by norm_num) (by decide)⟩

theorem finalizeReport_isSome (df : DF) (h : df.rowCount ≠ 0) :
    (finalizeReport df).isSome = true := by
  have hrep : finalizeReport df = (if df.rowCount = 0 then none else some ⟨df.rowCount,
      df.rowCount - (dropMissingCritical (replaceInfNan df)).rowCount,
      (df.rowCount - (clean_and_finalize df).rowCount) -
        (df.rowCount - (dropMissingCritical (replaceInfNan df)).rowCount),
      (clean_and_finalize df).rowCount,
      qMul (qDiv ((clean_and_finalize df).rowCount : ℚ) (df.rowCount : ℚ)) 100⟩) := rfl
  rw [hrep, if_neg h]
  rfl

/-- On a 2-row input the 24-hour forward-return column is entirely
missing, so the Finalizer empties the table. -/
theorem tiny_run_empty :
    (generate_all_features idFns (mkOHLCV 2) none none none).rowCount = 0 := by
  have hmem1 := future24_mem_gpf idFns (mkOHLCV 2)
  have hmem2 := mem_cols_blockHashRate _ hmem1 (by decide) (by decide)
  have hmem3 := mem_cols_blockDifficulty _ hmem2 (by decide)
  have hmem4 := mem_cols_blockTxCount _ hmem3 (by decide) (by decide)
  have hmem5 := mem_cols_blockNvt _ hmem4 (by decide)
  have hmem6 := mem_cols_blockFearGreed _ hmem5 (by decide) (by decide) (by decide)
    (by decide)
  have hmem7 := mem_cols_blockSp500 idFns _ hmem6 (by decide) (by decide) (by decide)
  have hmem8 := mem_cols_blockVix _ hmem7 (by decide) (by decide)
  have hmem9 := mem_cols_blockDxy idFns _ hmem8 (by decide) (by decide)
  have hmem10 := mem_cols_blockGold idFns _ hmem9 (by decide) (by decide)
  have hmem11 := mem_cols_create_target_labels _ hmem10 (by decide) (by decide)
    (by decide)
  have hnan : ∀ v ∈ cmap2 (mkOHLCV 2).rowCount ratioM1
      (shiftNeg 24 (((mkOHLCV 2).getCol "Close").getD []))
      (((mkOHLCV 2).getCol "Close").getD []), v = PVal.nan := by decide
  have hidx := finalize_empty_of_allnan_col _ _ _ hmem11 hnan
  show (clean_and_finalize (create_target_labels (blockGold idFns (blockDxy idFns
    (blockVix (blockSp500 idFns (blockFearGreed (blockNvt (blockTxCount
    (blockDifficulty (blockHashRate (generate_price_features idFns
    (mkOHLCV 2))))))))))))).idx.length = 0
  rw [hidx]
  rfl

/-- C6 (code bug): on a 2-row input every row is cleaned away, yet the
run reports statistics normally (the report exists since the pre-cleaning
table is nonempty) and the empty table is still persisted — the claim
says an empty result surfaces an explicit failure and writes no file. -/
theorem C6_empty_output_still_saved :
    0 < (mkOHLCV 2).rowCount ∧
    (finalizeReport (create_target_labels (add_derived_features idFns
      (generate_price_features idFns (mkOHLCV 2))))).isSome = true ∧
    (generate_all_features idFns (mkOHLCV 2) none none none).rowCount = 0 ∧
    save_features (some (generate_all_features idFns (mkOHLCV 2) none none none)) =
      true := by
  refine ⟨by decide, ?_, tiny_run_empty, rfl⟩
  apply finalizeReport_isSome
  rw [DF.rowCount, idx_create_target_labels, idx_add_derived_features,
    idx_generate_price_features]
  decide

/-- C7 (amended): the Finalizer drops the final 24 rows of any OHLCV
input (every distinct-timestamp row within 24 of the end), not only the
"last incomplete interval": the 24-hour forward return is undefined
there, the target columns are never back-filled, and the final `dropna`
removes those rows. -/
theorem C7_tail_rows_dropped (F : RealFns) (df : DF) (hwf : DF.wf df)
    (hnd : df.idx.Nodup) (j : ℕ) (hj : j < df.rowCount)
    (htail : df.rowCount ≤ j + 24) :
    df.idx.getD j 0 ∉ (generate_all_features F df none none none).idx :=
  pipeline_drops_last24 F df hwf hnd j hj htail

/-- Witness for C7 (amended) on a concrete 30-row constant table. -/
theorem C7_tail_rows_dropped_witness :
    DF.wf (constOHLCV 30) ∧ (constOHLCV 30).idx.Nodup ∧
    20 < (constOHLCV 30).rowCount ∧ (constOHLCV 30).rowCount ≤ 20 + 24 ∧
    (constOHLCV 30).idx.getD 20 0 ∉
      (generate_all_features idFns (constOHLCV 30) none none none).idx :=
  ⟨by decide, by decide, by decide, by decide,
    C7_tail_rows_dropped idFns (constOHLCV 30) (by decide) (by decide) 20
      (by decide) (by decide)⟩

/-- C7 counterexample: on a 10000-row input, row 9998 is past every
warm-up window and is not the final row, yet its timestamp is absent from
the pipeline output — the claim predicts only the last row disappears. -/
theorem idx_constOHLCV (n : ℕ) : (constOHLCV n).idx = List.range n := rfl

theorem wf_constOHLCV (n : ℕ) : DF.wf (constOHLCV n) := by
  intro p hp
  simp only [constOHLCV, List.mem_cons, List.not_mem_nil, or_false] at hp
  rcases hp with rfl | rfl | rfl | rfl | rfl <;>
    (show (constCol n 1).length = (constOHLCV n).idx.length
     rw [constCol, List.length_replicate, idx_constOHLCV, List.length_range])

theorem nodup_constOHLCV (n : ℕ) : (constOHLCV n).idx.Nodup := by
  rw [idx_constOHLCV]
  exact List.nodup_range n

theorem rowCount_constOHLCV (n : ℕ) : (constOHLCV n).rowCount = n := by
  rw [DF.rowCount, idx_constOHLCV, List.length_range]

theorem idx_getD_constOHLCV (n j : ℕ) (h : j < n) :
    (constOHLCV n).idx.getD j 0 = j := by
  rw [idx_constOHLCV,
    List.getD_eq_getElem _ _ (by rw [List.length_range]; omega)]
  exact List.getElem_range _ _

theorem C7_more_than_last_row_dropped :
    199 ≤ 9998 ∧ (9998 : ℕ) ≠ 9999 ∧
    (9998 : ℕ) ∉ (generate_all_features idFns (constOHLCV 10000) none none none).idx := by
  refine ⟨by norm_num, by norm_num, ?_⟩
  have h := pipeline_drops_last24 idFns (constOHLCV 10000) (wf_constOHLCV 10000)
    (nodup_constOHLCV 10000) 9998
    (by rw [rowCount_constOHLCV]; norm_num)
    (by rw [rowCount_constOHLCV]; norm_num)
  rw [idx_getD_constOHLCV 10000 9998 (by norm_num)] at h
  exact h

/-! ### C8 machinery: a temporally disjoint source zeroes the output -/

theorem foldl_min_mem (t0 : ℕ) (rest : List ℕ) : rest.foldl min t0 ∈ t0 :: rest := by
  induction rest generalizing t0 with
  | nil => simp
  | cons r rs ih =>
      rw [List.foldl_cons]
      rcases Nat.le_total t0 r with hle | hle
      · rw [min_eq_left hle]
        rcases List.mem_cons.mp (ih t0) with he | hm
        · rw [he]
          exact List.mem_cons_self _ _
        · exact List.mem_cons_of_mem _ (List.mem_cons_of_mem _ hm)
      · rw [min_eq_right hle]
        rcases List.mem_cons.mp (ih r) with he | hm
        · rw [he]
          exact List.mem_cons_of_mem _ (List.mem_cons_self _ _)
        · exact List.mem_cons_of_mem _ (List.mem_cons_of_mem _ hm)

theorem joinLookup_eq_nan (ids : List ℕ) (col : Col) (t : ℕ)
    (h : ∀ u ∈ ids, ¬(u = t)) : joinLookup ids col t = PVal.nan := by
  rw [joinLookup]
  have hf : (ids.zip col).find? (fun p => p.1 = t) = none :=
    List.find?_eq_none.mpr (fun p hp => by
      simpa using h p.1 (List.of_mem_zip hp).1)
  rw [hf]
  rfl

theorem resample_idx_lb (src : DF) (t0 : ℕ) (rest : List ℕ)
    (hidx : src.idx = t0 :: rest) :
    ∀ u ∈ (resampleHourlyFfill src).idx, rest.foldl min t0 ≤ u := by
  unfold resampleHourlyFfill
  rw [hidx]
  intro u hu
  have hm : u ∈ ((List.range (rest.foldl max t0 - rest.foldl min t0 + 1)).map
      (fun k => rest.foldl min t0 + k)) := hu
  obtain ⟨k, _, rfl⟩ := List.mem_map.mp hm
  exact Nat.le_add_right _ _

theorem resample_cols_entry (src : DF) (t0 : ℕ) (rest : List ℕ)
    (hidx : src.idx = t0 :: rest) (nm : String) (vs : Col)
    (h : (nm, vs) ∈ src.cols) :
    ∃ c2, (nm, c2) ∈ (resampleHourlyFfill src).cols := by
  refine ⟨((List.range (rest.foldl max t0 - rest.foldl min t0 + 1)).map
      (fun k => rest.foldl min t0 + k)).map (fun t => lastAtOrBefore src.idx vs t), ?_⟩
  show (nm, _) ∈ (resampleHourlyFfill src).cols
  unfold resampleHourlyFfill
  rw [hidx]
  exact List.mem_map_of_mem (fun p : String × Col => (p.1,
    ((List.range (rest.foldl max t0 - rest.foldl min t0 + 1)).map
      (fun k => rest.foldl min t0 + k)).map (fun t => lastAtOrBefore (t0 :: rest) p.2 t))) h

theorem mem_cols_merge (df src : DF) (srcName : String) (nm : String) (c2 : Col)
    (hne : ¬(src.idx.isEmpty ∨ src.cols.isEmpty))
    (hmem : (nm, c2) ∈ (resampleHourlyFfill src).cols) :
    (nm, fillnaL
        (medianL (bfillL (ffillL (df.idx.map (fun t =>
          joinLookup (resampleHourlyFfill src).idx c2 t)))))
        (bfillL (ffillL (df.idx.map (fun t =>
          joinLookup (resampleHourlyFfill src).idx c2 t))))) ∈
      (merge_external_data df srcName src).cols := by
  rw [merge_external_data, if_neg hne]
  have hname : nm ∈ (resampleHourlyFfill src).colNames :=
    List.mem_map_of_mem (@Prod.fst String Col) hmem
  have hj : (nm, df.idx.map (fun t =>
      joinLookup (resampleHourlyFfill src).idx c2 t)) ∈
      (leftJoin df (resampleHourlyFfill src)).cols :=
    List.mem_append_right _ (List.mem_map_of_mem _ hmem)
  have h1 := List.mem_map_of_mem (fun p : String × Col =>
    if p.1 ∈ (resampleHourlyFfill src).colNames then (p.1, bfillL (ffillL p.2))
    else p) hj
  rw [show (fun p : String × Col =>
      if p.1 ∈ (resampleHourlyFfill src).colNames then (p.1, bfillL (ffillL p.2))
      else p) (nm, df.idx.map (fun t =>
        joinLookup (resampleHourlyFfill src).idx c2 t)) =
    (nm, bfillL (ffillL (df.idx.map (fun t =>
      joinLookup (resampleHourlyFfill src).idx c2 t)))) from by
      dsimp only
      rw [if_pos hname]] at h1
  have h2 := List.mem_map_of_mem (fun p : String × Col =>
    if p.1 ∈ (resampleHourlyFfill src).colNames then (p.1, fillnaL (medianL p.2) p.2)
    else p) h1
  rw [show (fun p : String × Col =>
      if p.1 ∈ (resampleHourlyFfill src).colNames then (p.1, fillnaL (medianL p.2) p.2)
      else p) (nm, bfillL (ffillL (df.idx.map (fun t =>
        joinLookup (resampleHourlyFfill src).idx c2 t)))) =
    (nm, fillnaL
      (medianL (bfillL (ffillL (df.idx.map (fun t =>
        joinLookup (resampleHourlyFfill src).idx c2 t)))))
      (bfillL (ffillL (df.idx.map (fun t =>
        joinLookup (resampleHourlyFfill src).idx c2 t))))) from by
      dsimp only
      rw [if_pos hname]] at h2
  exact h2

/-- A sentiment source lying entirely after the OHLCV index leaves the
joined fear/greed column with no defined value, so the Finalizer's last
step drops every row of the output table. -/
theorem merge_disjoint_fear_greed_empty (F : RealFns) (ohlcv src : DF) (vs : Col)
    (hcols : src.cols = [("fear_greed_value", vs)]) (hne : src.idx ≠ [])
    (hdisj : ∀ t ∈ ohlcv.idx, ∀ s ∈ src.idx, t < s) :
    (generate_all_features F ohlcv none (some src) none).idx = [] := by
  obtain ⟨t0, rest, hidx⟩ : ∃ t0 rest, src.idx = t0 :: rest := by
    cases hsi : src.idx with
    | nil => exact absurd hsi hne
    | cons a l => exact ⟨a, l, rfl⟩
  have hvs : ("fear_greed_value", vs) ∈ src.cols := by
    rw [hcols]
    exact List.mem_cons_self _ _
  obtain ⟨c2, hc2⟩ := resample_cols_entry src t0 rest hidx "fear_greed_value" vs hvs
  have hneBool : ¬(src.idx.isEmpty ∨ src.cols.isEmpty) := by
    rw [hidx, hcols]
    simp
  set g := generate_price_features F ohlcv with hg
  have hlo_mem : rest.foldl min t0 ∈ src.idx := by
    rw [hidx]
    exact foldl_min_mem t0 rest
  have hjnan : ∀ v ∈ g.idx.map (fun t =>
      joinLookup (resampleHourlyFfill src).idx c2 t), v = PVal.nan := by
    intro v hv
    obtain ⟨t, ht, rfl⟩ := List.mem_map.mp hv
    apply joinLookup_eq_nan
    intro u hu heq
    have hlb := resample_idx_lb src t0 rest hidx u hu
    have htg : t ∈ ohlcv.idx := by
      rw [hg, idx_generate_price_features] at ht
      exact ht
    have := hdisj t htg (rest.foldl min t0) hlo_mem
    omega
  have hfcnan : ∀ v ∈ bfillL (ffillL (g.idx.map (fun t =>
      joinLookup (resampleHourlyFfill src).idx c2 t))), v = PVal.nan :=
    bfillL_allnan (ffillL_allnan hjnan)
  have hmergecol : ∀ v ∈ fillnaL
      (medianL (bfillL (ffillL (g.idx.map (fun t =>
        joinLookup (resampleHourlyFfill src).idx c2 t)))))
      (bfillL (ffillL (g.idx.map (fun t =>
        joinLookup (resampleHourlyFfill src).idx c2 t)))), v = PVal.nan :=
    fillnaL_allnan _ (medianL_allnan hfcnan) hfcnan
  have hmem1 := mem_cols_merge g src "sentiment" "fear_greed_value" c2 hneBool hc2
  have hmem2 := mem_cols_blockHashRate _ hmem1 (by decide) (by decide)
  have hmem3 := mem_cols_blockDifficulty _ hmem2 (by decide)
  have hmem4 := mem_cols_blockTxCount _ hmem3 (by decide) (by decide)
  have hmem5 := mem_cols_blockNvt _ hmem4 (by decide)
  have hmem6 := mem_cols_blockFearGreed _ hmem5 (by decide) (by decide) (by decide)
    (by decide)
  have hmem7 := mem_cols_blockSp500 F _ hmem6 (by decide) (by decide) (by decide)
  have hmem8 := mem_cols_blockVix _ hmem7 (by decide) (by decide)
  have hmem9 := mem_cols_blockDxy F _ hmem8 (by decide) (by decide)
  have hmem10 := mem_cols_blockGold F _ hmem9 (by decide) (by decide)
  have hmem11 := mem_cols_create_target_labels _ hmem10 (by decide) (by decide)
    (by decide)
  exact finalize_empty_of_allnan_col _ _ _ hmem11 hmergecol

/-- C8 (amended): merging an external source is not harmless. A sentiment
source whose timestamps all lie strictly after the OHLCV index leaves the
joined fear/greed column entirely undefined, and the Finalizer then drops
every row: the pipeline output is empty, where the same run without the
source keeps rows. -/
theorem C8_disjoint_source_empties_output (F : RealFns) (ohlcv src : DF) (vs : Col)
    (hcols : src.cols = [("fear_greed_value", vs)]) (hne : src.idx ≠ [])
    (hdisj : ∀ t ∈ ohlcv.idx, ∀ s ∈ src.idx, t < s) :
    (generate_all_features F ohlcv none (some src) none).rowCount = 0 := by
  rw [DF.rowCount, merge_disjoint_fear_greed_empty F ohlcv src vs hcols hne hdisj]
  rfl

/-- Witness for C8 (amended) on a concrete three-row frame and one-row
late source. -/
theorem C8_disjoint_source_empties_output_witness :
    lateSentiment.cols = [("fear_greed_value", [PVal.num 50])] ∧
    lateSentiment.idx ≠ [] ∧
    (∀ t ∈ closeFrame.idx, ∀ s ∈ lateSentiment.idx, t < s) ∧
    (generate_all_features idFns closeFrame none (some lateSentiment) none).rowCount
      = 0 :=
  ⟨rfl, by decide, by decide,
    C8_disjoint_source_empties_output idFns closeFrame lateSentiment [PVal.num 50]
      rfl (by decide) (by decide)⟩

theorem selectMask_pos_of_bit {m : List Bool} {xs : List α} (p : ℕ)
    (hp : p < xs.length) (hbit : m.getD p false = true) :
    0 < (selectMask m xs).length := by
  induction m generalizing xs p with
  | nil =>
      rw [List.getD_eq_default _ _ (by simp)] at hbit
      exact absurd hbit (by simp)
  | cons b mt ih =>
      cases xs with
      | nil => simp at hp
      | cons x xt =>
          cases p with
          | zero =>
              have hb : b = true := by simpa using hbit
              rw [selectMask, if_pos hb]
              simp
          | succ p' =>
              have hbit' : mt.getD p' false = true := by simpa using hbit
              have hp' : p' < xt.length := by simpa using hp
              by_cases hb : b
              · rw [selectMask, if_pos hb]
                simp
              · rw [selectMask, if_neg hb]
                exact ih p' hp' hbit'

/-! ### Survival of one concrete row through the Finalizer -/

theorem isNan_false_iff (v : PVal) : v.isNan = false ↔ v ≠ PVal.nan := by
  cases v <;> simp [PVal.isNan]

theorem ffillGo_cons (prev x : PVal) (xt : List PVal) :
    ffillGo prev (x :: xt) =
      (if x = PVal.nan then prev else x) ::
        ffillGo (if x = PVal.nan then prev else x) xt := rfl

theorem ffillGo_length (prev : PVal) (xs : List PVal) :
    (ffillGo prev xs).length = xs.length := by
  induction xs generalizing prev with
  | nil => rfl
  | cons x xt ih =>
      rw [ffillGo_cons, List.length_cons, List.length_cons, ih]

theorem ffillL_length (xs : List PVal) : (ffillL xs).length = xs.length :=
  ffillGo_length _ _

theorem bfillL_length (xs : List PVal) : (bfillL xs).length = xs.length := by
  rw [bfillL, List.length_reverse, ffillGo_length, List.length_reverse]

theorem ffillGo_ne_nan_of_prev (xs : List PVal) (prev : PVal)
    (hprev : prev ≠ PVal.nan) :
    ∀ i < xs.length, (ffillGo prev xs).getD i PVal.nan ≠ PVal.nan := by
  induction xs generalizing prev with
  | nil =>
      intro i hi
      simp at hi
  | cons x xt ih =>
      intro i hi
      rw [ffillGo_cons]
      have hcur : (if x = PVal.nan then prev else x) ≠ PVal.nan := by
        by_cases hx : x = PVal.nan
        · rwa [if_pos hx]
        · rwa [if_neg hx]
      cases i with
      | zero => simpa using hcur
      | succ i' =>
          rw [List.getD_cons_succ]
          exact ih _ hcur i' (by simpa using hi)

theorem ffillGo_carry (xs : List PVal) (prev : PVal) (u v : ℕ) (huv : u ≤ v)
    (hv : v < xs.length) (h : xs.getD u PVal.nan ≠ PVal.nan) :
    (ffillGo prev xs).getD v PVal.nan ≠ PVal.nan := by
  induction xs generalizing prev u v with
  | nil => simp at hv
  | cons x xt ih =>
      rw [ffillGo_cons]
      cases u with
      | zero =>
          have hx : x ≠ PVal.nan := by simpa using h
          have hcur : (if x = PVal.nan then prev else x) ≠ PVal.nan := by
            rwa [if_neg hx]
          cases v with
          | zero => simpa using hcur
          | succ v' =>
              rw [List.getD_cons_succ]
              exact ffillGo_ne_nan_of_prev xt _ hcur v' (by simpa using hv)
      | succ u' =>
          cases v with
          | zero => omega
          | succ v' =>
              rw [List.getD_cons_succ]
              exact ih _ u' v' (by omega) (by simpa using hv) (by simpa using h)

theorem ffillL_getD_ne_nan (c : Col) (s : ℕ) (hs : s < c.length)
    (h : c.getD s PVal.nan ≠ PVal.nan) :
    (ffillL c).getD s PVal.nan ≠ PVal.nan :=
  ffillGo_carry c PVal.nan s s le_rfl hs h

theorem getD_reverse {l : List α} (i : ℕ) (d : α) (h : i < l.length) :
    l.reverse.getD i d = l.getD (l.length - 1 - i) d := by
  rw [List.getD_eq_getElem _ _ (by simpa using h),
    List.getD_eq_getElem _ _ (by omega)]
  exact List.getElem_reverse _

theorem bfillL_getD_ne_nan (c : Col) (t s : ℕ) (hts : t ≤ s) (hs : s < c.length)
    (h : c.getD s PVal.nan ≠ PVal.nan) :
    (bfillL c).getD t PVal.nan ≠ PVal.nan := by
  rw [bfillL, getD_reverse _ _ (by rw [ffillGo_length, List.length_reverse]; omega),
    ffillGo_length, List.length_reverse]
  apply ffillGo_carry c.reverse PVal.nan (c.length - 1 - s) (c.length - 1 - t)
    (by omega) (by rw [List.length_reverse]; omega)
  rw [getD_reverse _ _ (by omega)]
  have hss : c.length - 1 - (c.length - 1 - s) = s := by omega
  rw [hss]
  exact h

theorem selectMask_prefix_true (m : List Bool) (xs : List α) (k : ℕ) (d : α)
    (hpre : m.take (k + 1) = List.replicate (k + 1) true) (hk : k < xs.length) :
    k < (selectMask m xs).length ∧ (selectMask m xs).getD k d = xs.getD k d := by
  induction m generalizing xs k with
  | nil => simp [List.replicate_succ] at hpre
  | cons b mt ih =>
      cases xs with
      | nil => simp at hk
      | cons x xt =>
          rw [List.take_succ_cons, List.replicate_succ, List.cons.injEq] at hpre
          obtain ⟨hb, hrest⟩ := hpre
          subst hb
          rw [selectMask, if_pos rfl]
          cases k with
          | zero => exact ⟨by simp, by simp⟩
          | succ k' =>
              obtain ⟨hl, he⟩ := ih xt k' hrest (by simpa using hk)
              exact ⟨by simpa using hl, by simpa using he⟩

theorem getD_replicate_true (n i : ℕ) (h : i < n) :
    (List.replicate n true).getD i false = true := by
  rw [List.getD_eq_getElem _ _ (by simpa using h)]
  simp

theorem andMask_true_intro {m x : List Bool} {i : ℕ}
    (hm : m.getD i false = true) (hx : x.getD i false = true) :
    (andMask m x).getD i false = true := by
  have him : i < m.length := getD_true_lt_length hm
  have hix : i < x.length := getD_true_lt_length hx
  rw [List.getD_eq_getElem _ _ him] at hm
  rw [List.getD_eq_getElem _ _ hix] at hx
  rw [andMask, List.getD_eq_getElem _ _ (by rw [List.length_zipWith]; omega),
    List.getElem_zipWith, hm, hx]
  rfl

theorem foldl_andMask_true_intro (l : List (String × Col)) (m0 : List Bool) (i : ℕ)
    (h0 : m0.getD i false = true)
    (hall : ∀ p ∈ l, (p.2.map (fun v : PVal => !v.isNan)).getD i false = true) :
    (l.foldl (fun m p => andMask m (p.2.map (fun v => !v.isNan))) m0).getD i false =
      true := by
  induction l generalizing m0 with
  | nil => exact h0
  | cons p ps ih =>
      rw [List.foldl_cons]
      exact ih _ (andMask_true_intro h0 (hall p (List.mem_cons_self _ _)))
        (fun q hq => hall q (List.mem_cons_of_mem _ hq))

theorem ball_of_take_drop {P : α → Prop} (k : ℕ) (l : List α)
    (h1 : ∀ p ∈ l.take k, P p) (h2 : ∀ p ∈ l.drop k, P p) : ∀ p ∈ l, P p := by
  intro p hp
  rw [← List.take_append_drop k l] at hp
  rcases List.mem_append.mp hp with h | h
  · exact h1 p h
  · exact h2 p h

set_option maxRecDepth 100000 in
set_option maxHeartbeats 1600000 in
theorem preA_facts0 : ∀ q ∈ (preA.cols.take 10),
    q.2.length = 200 ∧
    (isTech q.1 = false → ((q.2.map infToNan).getD 170 PVal.nan).isNan = false) ∧
    (isTech q.1 = true → (((q.2.map infToNan).getD 170 PVal.nan).isNan = false ∨
      ((q.2.map infToNan).getD 199 PVal.nan).isNan = false)) := by
  decide

set_option maxRecDepth 100000 in
set_option maxHeartbeats 1600000 in
theorem preA_facts1 : ∀ q ∈ ((preA.cols.drop 10).take 10),
    q.2.length = 200 ∧
    (isTech q.1 = false → ((q.2.map infToNan).getD 170 PVal.nan).isNan = false) ∧
    (isTech q.1 = true → (((q.2.map infToNan).getD 170 PVal.nan).isNan = false ∨
      ((q.2.map infToNan).getD 199 PVal.nan).isNan = false)) := by
  decide

set_option maxRecDepth 100000 in
set_option maxHeartbeats 1600000 in
theorem preA_facts2 : ∀ q ∈ (((preA.cols.drop 10).drop 10).take 10),
    q.2.length = 200 ∧
    (isTech q.1 = false → ((q.2.map infToNan).getD 170 PVal.nan).isNan = false) ∧
    (isTech q.1 = true → (((q.2.map infToNan).getD 170 PVal.nan).isNan = false ∨
      ((q.2.map infToNan).getD 199 PVal.nan).isNan = false)) := by
  decide

set_option maxRecDepth 100000 in
set_option maxHeartbeats 1600000 in
theorem preA_facts3 : ∀ q ∈ ((((preA.cols.drop 10).drop 10).drop 10).take 10),
    q.2.length = 200 ∧
    (isTech q.1 = false → ((q.2.map infToNan).getD 170 PVal.nan).isNan = false) ∧
    (isTech q.1 = true → (((q.2.map infToNan).getD 170 PVal.nan).isNan = false ∨
      ((q.2.map infToNan).getD 199 PVal.nan).isNan = false)) := by
  decide

set_option maxRecDepth 100000 in
set_option maxHeartbeats 1600000 in
theorem preA_facts4 : ∀ q ∈ ((((preA.cols.drop 10).drop 10).drop 10).drop 10),
    q.2.length = 200 ∧
    (isTech q.1 = false → ((q.2.map infToNan).getD 170 PVal.nan).isNan = false) ∧
    (isTech q.1 = true → (((q.2.map infToNan).getD 170 PVal.nan).isNan = false ∨
      ((q.2.map infToNan).getD 199 PVal.nan).isNan = false)) := by
  decide

theorem preA_facts : ∀ q ∈ preA.cols,
    q.2.length = 200 ∧
    (isTech q.1 = false → ((q.2.map infToNan).getD 170 PVal.nan).isNan = false) ∧
    (isTech q.1 = true → (((q.2.map infToNan).getD 170 PVal.nan).isNan = false ∨
      ((q.2.map infToNan).getD 199 PVal.nan).isNan = false)) :=
  ball_of_take_drop 10 _ preA_facts0
    (ball_of_take_drop 10 _ preA_facts1
      (ball_of_take_drop 10 _ preA_facts2
        (ball_of_take_drop 10 _ preA_facts3 preA_facts4)))

theorem selectMask_skip1_prefix (m : List Bool) (xs : List α) (k : ℕ) (d : α)
    (hpre : m.take (k + 2) = false :: List.replicate (k + 1) true)
    (hk : k + 1 < xs.length) :
    k < (selectMask m xs).length ∧ (selectMask m xs).getD k d = xs.getD (k + 1) d := by
  cases m with
  | nil => simp at hpre
  | cons b mt =>
      cases xs with
      | nil => simp at hk
      | cons x xt =>
          rw [List.take_succ_cons, List.cons.injEq] at hpre
          obtain ⟨hb, hrest⟩ := hpre
          subst hb
          rw [selectMask, if_neg (by decide)]
          obtain ⟨hl, he⟩ := selectMask_prefix_true mt xt k d hrest (by simpa using hk)
          exact ⟨hl, by simpa using he⟩

set_option maxRecDepth 100000 in
set_option maxHeartbeats 1600000 in
theorem m2A_prefix169 : m2A.take 171 = false :: List.replicate 170 true := by
  decide

set_option maxRecDepth 100000 in
set_option maxHeartbeats 1600000 in
theorem m2A_prefix198 : m2A.take 200 = false :: List.replicate 199 true := by
  decide

set_option maxRecDepth 100000 in
set_option maxHeartbeats 1600000 in
theorem m4A_prefix : m4A.take 170 = List.replicate 170 true := by
  decide

set_option maxRecDepth 100000 in
set_option maxHeartbeats 1600000 in
theorem idx3_len : 169 < df3A.idx.length := by
  decide

theorem cols_df4A : df4A.cols = preA.cols.map (fun q =>
    if isTech q.1 then
      (q.1, selectMask m4A (bfillL (ffillL (selectMask m2A (q.2.map infToNan)))))
    else (q.1, selectMask m4A (selectMask m2A (q.2.map infToNan)))) := by
  show (((preA.cols.map (fun p => (p.1, p.2.map infToNan))).map
      (fun p => (p.1, selectMask m2A p.2))).map (fun p =>
      if isTech p.1 then (p.1, bfillL (ffillL p.2)) else p)).map
      (fun p => (p.1, selectMask m4A p.2)) = _
  rw [List.map_map, List.map_map, List.map_map]
  apply List.map_congr_left
  intro q _
  by_cases ht : isTech q.1
  · dsimp only [Function.comp]
    rw [if_pos ht, if_pos ht]
  · dsimp only [Function.comp]
    rw [if_neg ht, if_neg ht]

set_option maxRecDepth 100000 in
theorem df4A_rows169 : 169 < df4A.idx.length :=
  (selectMask_prefix_true m4A df3A.idx 169 0 m4A_prefix idx3_len).1

set_option maxRecDepth 100000 in
theorem df4A_bit169 : (dropnaAllMask df4A).getD 169 false = true := by
  have hall : ∀ p ∈ df4A.cols,
      (p.2.map (fun v => !v.isNan)).getD 169 false = true := by
    rw [cols_df4A]
    intro p hp
    obtain ⟨q, hq, rfl⟩ := List.mem_map.mp hp
    obtain ⟨hlen, hA, hB⟩ := preA_facts q hq
    have hc1len : (q.2.map infToNan).length = 200 := by
      rw [List.length_map, hlen]
    have h169 := selectMask_skip1_prefix m2A (q.2.map infToNan) 169 PVal.nan
      m2A_prefix169 (by rw [hc1len]; omega)
    have h198 := selectMask_skip1_prefix m2A (q.2.map infToNan) 198 PVal.nan
      m2A_prefix198 (by rw [hc1len]; omega)
    by_cases ht : isTech q.1
    · rw [if_pos ht]
      dsimp only
      have hlen2 : 198 < (selectMask m2A (q.2.map infToNan)).length := h198.1
      have hk : 169 <
          (bfillL (ffillL (selectMask m2A (q.2.map infToNan)))).length := by
        rw [bfillL_length, ffillL_length]
        omega
      obtain ⟨hl, he⟩ := selectMask_prefix_true m4A
        (bfillL (ffillL (selectMask m2A (q.2.map infToNan)))) 169
        PVal.nan m4A_prefix hk
      rw [getD_map_eq _ _ _ _ hl, he]
      have hnn : (bfillL (ffillL (selectMask m2A
          (q.2.map infToNan)))).getD 169 PVal.nan ≠ PVal.nan := by
        rcases hB ht with hv | hv
        · exact bfillL_getD_ne_nan _ 169 169 le_rfl
            (by rw [ffillL_length]; omega)
            (ffillL_getD_ne_nan _ 169 (by omega)
              (by rw [h169.2]; exact (isNan_false_iff _).mp hv))
        · exact bfillL_getD_ne_nan _ 169 198 (by omega)
            (by rw [ffillL_length]; omega)
            (ffillL_getD_ne_nan _ 198 (by omega)
              (by rw [h198.2]; exact (isNan_false_iff _).mp hv))
      rw [(isNan_false_iff _).mpr hnn]
      rfl
    · rw [if_neg ht]
      dsimp only
      have hk : 169 < (selectMask m2A (q.2.map infToNan)).length := by
        have := h198.1
        omega
      obtain ⟨hl, he⟩ := selectMask_prefix_true m4A
        (selectMask m2A (q.2.map infToNan)) 169 PVal.nan m4A_prefix hk
      rw [getD_map_eq _ _ _ _ hl, he, h169.2]
      rw [hA (by simpa using ht)]
      rfl
  rw [dropnaAllMask]
  have hrows : 169 < df4A.rowCount :=
    (selectMask_prefix_true m4A df3A.idx 169 0 m4A_prefix idx3_len).1
  exact foldl_andMask_true_intro df4A.cols _ 169
    (getD_replicate_true _ _ hrows) hall

set_option maxRecDepth 1000000 in
set_option maxHeartbeats 1600000 in
/-- C8 counterexample: on a 200-row OHLCV table the pipeline without
external sources keeps at least one row (row 169 of the step-4 table
survives the final dropna), but adding the late sentiment source empties
the output — merging a source does drop rows. -/
theorem C8_sentiment_merge_drops_rows :
    (generate_all_features idFns (mkOHLCV 200) none (some lateSentiment) none).rowCount <
    (generate_all_features idFns (mkOHLCV 200) none none none).rowCount := by
  have hB : (generate_all_features idFns (mkOHLCV 200) none
      (some lateSentiment) none).rowCount = 0 := by
    rw [DF.rowCount, merge_disjoint_fear_greed_empty idFns (mkOHLCV 200) lateSentiment
      [PVal.num 50] rfl (by decide) (by decide)]
    rfl
  rw [hB]
  show 0 < (selectMask (dropnaAllMask df4A) df4A.idx).length
  exact selectMask_pos_of_bit 169 df4A_rows169 df4A_bit169

end FE
